import Mathlib

/-!
Verification of the LDA collapsed-Gibbs core (`src/TopicModel/LDAModel.hpp`).

The embedding below translates the source functions into executable Lean
definitions.  Machine floating-point arithmetic is modelled exactly over `ℚ`;
external mathematical kernels that live outside the provided sources
(`math::digammaT`, `math::lgammaT`, `log` from `Utils/math.h`) are passed as
explicit function parameters, so every theorem holds for an arbitrary
realization of those kernels.  Counts are modelled over `ℚ` as well: in
`TermWeight::one` mode they are integers (`int32_t` in the source) and every
arithmetic operation performed on them is exact, so the rational embedding is
faithful for both the integer and the float specialisations.
-/

namespace tomoto

/-- Term weighting modes, from `enum class TermWeight { one, idf, pmi, size }`.
The `size` member is only a count marker in the source and is not a real mode. -/
inductive TermWeight where
  | one
  | idf
  | pmi
deriving DecidableEq, Repr

/-- A document, from `struct DocumentLDA`: token vocab ids `words`, per-token
topic assignments `Zs`, per-token weights `wordWeights` (used only in weighted
modes), and the per-document topic count vector `numByTopic`. -/
structure DocumentLDA where
  words : List ℕ
  Zs : List ℕ
  wordWeights : List ℚ
  numByTopic : List ℚ
deriving DecidableEq, Repr

/-- Sufficient statistics, from `struct ModelStateLDA`: the topic total vector
`numByTopic` (length K) and the topic×vocab count matrix `numByTopicWord`
(K rows of length V; row k holds the counts of each vocab id in topic k). -/
structure ModelStateLDA where
  numByTopic : List ℚ
  numByTopicWord : List (List ℚ)
deriving DecidableEq, Repr

/-- From `DocumentLDA::getSumWordWeight`: in `one` mode the number of tokens
(`words.size()`, out-of-vocab positions included); in weighted modes the sum of
all entries of `wordWeights` (again including out-of-vocab positions). -/
def getSumWordWeight (tw : TermWeight) (d : DocumentLDA) : ℚ :=
  match tw with
  | .one => d.words.length
  | .idf => d.wordWeights.sum
  | .pmi => d.wordWeights.sum

/-- The `size_t` conversion that the transform lambda of `getTopicsByDoc`
applies to each count before `alpha` is added (`[sum, this](size_t n)`): on
the non-negative counts the program maintains — `int32_t` counts in `one`
mode, clamped float counts in the weighted modes — the conversion truncates
toward zero, which is the floor; converting a negative float to `size_t` is
undefined behaviour in the source and is outside the model. -/
def truncCount (n : ℚ) : ℚ := (⌊n⌋ : ℚ)

/-- From `LDAModel::getTopicsByDoc`:
`sum = getSumWordWeight() + K * alpha` and each entry is
`(size_t(numByTopic[k]) + alpha) / sum` — note the SCALAR `alpha`, not the
vector `alphas`, and the `size_t` truncation of the count applied by the
transform lambda (the identity on the integer counts of `one` mode, a
truncation toward zero of the float counts in `idf`/`pmi` modes). -/
def getTopicsByDoc (tw : TermWeight) (K : ℕ) (alpha : ℚ) (d : DocumentLDA) :
    List ℚ :=
  let sum := getSumWordWeight tw d + (K : ℚ) * alpha
  (d.numByTopic.take K).map (fun n => (truncCount n + alpha) / sum)

/-- The spec's formula for the topic distribution of a document, written from
the spec's words for comparison with `getTopicsByDoc`:
`θ_{d,k} = (d.num_by_topic[k] + alphas[k]) / (sum_word_weight(d) + Σ_k alphas[k])`
using the per-topic vector `alphas`. -/
def topicsByDocSpec (tw : TermWeight) (alphas : List ℚ) (d : DocumentLDA) :
    List ℚ :=
  (List.range alphas.length).map (fun k =>
    (d.numByTopic.getD k 0 + alphas.getD k 0) /
      (getSumWordWeight tw d + alphas.sum))

/-- The scalar configuration of a model, from the data members of `LDAModel`:
term weight mode, `K`, the scalar `alpha`, `eta`, and the operative per-topic
vector `alphas`. -/
structure LDAModelCore where
  tw : TermWeight
  K : ℕ
  alpha : ℚ
  eta : ℚ
  alphas : List ℚ
deriving DecidableEq, Repr

/-- From the constructor `LDAModel::LDAModel(_K, _alpha, _eta, _rg)`: stores
`K`, `alpha`, `eta` and sets `alphas = Constant(K, alpha)`.  No validation of
any argument is performed. -/
def LDAModelCtor (tw : TermWeight) (K : ℕ) (alpha eta : ℚ) : LDAModelCore :=
  ⟨tw, K, alpha, eta, List.replicate K alpha⟩

/-- From `ILDAModel::create` via the `SWITCH_TW` macro: the raw enum value of
the term weight selects the specialisation (0 = one, 1 = idf, 2 = pmi); any
other value falls through the `switch` and yields `nullptr` (`none`).  No
check of `K`, `alpha` or `eta` happens anywhere on this path. -/
def ILDAModel.create (twRaw : ℕ) (K : ℕ) (alpha eta : ℚ) :
    Option LDAModelCore :=
  if twRaw = 0 then some (LDAModelCtor .one K alpha eta)
  else if twRaw = 1 then some (LDAModelCtor .idf K alpha eta)
  else if twRaw = 2 then some (LDAModelCtor .pmi K alpha eta)
  else none

/-- Elementwise vector sum (`Eigen` `+` on length-K column vectors). -/
def vAdd (a b : List ℚ) : List ℚ := List.zipWith (· + ·) a b

/-- Elementwise vector difference (`Eigen` `-`). -/
def vSub (a b : List ℚ) : List ℚ := List.zipWith (· - ·) a b

/-- Elementwise clamp to `≥ 0` (`Eigen` `cwiseMax(0)`). -/
def vMax0 (a : List ℚ) : List ℚ := a.map (fun x => max x 0)

/-- Elementwise matrix sum. -/
def mAdd (A B : List (List ℚ)) : List (List ℚ) := List.zipWith vAdd A B

/-- Elementwise matrix difference. -/
def mSub (A B : List (List ℚ)) : List (List ℚ) := List.zipWith vSub A B

/-- Elementwise matrix clamp to `≥ 0`. -/
def mMax0 (A : List (List ℚ)) : List (List ℚ) := A.map vMax0

/-- The body of the accumulation loop of `mergeState`:
`globalState += localData[i] - tState` on both count structures. -/
def mergeStep (tState acc Li : ModelStateLDA) : ModelStateLDA :=
  ⟨vAdd acc.numByTopic (vSub Li.numByTopic tState.numByTopic),
   mAdd acc.numByTopicWord (mSub Li.numByTopicWord tState.numByTopicWord)⟩

/-- From `LDAModel::mergeState`: saves `tState = globalState`, overwrites the
global state with `localData[0]`, accumulates `localData[i] - tState` for
`i ≥ 1`, clamps elementwise to `≥ 0` in the weighted modes only, and finally
copies the merged state back into every local replica. -/
def mergeState (tw : TermWeight) (globalState : ModelStateLDA)
    (localData : List ModelStateLDA) : ModelStateLDA × List ModelStateLDA :=
  match localData with
  | [] => (globalState, [])
  | L0 :: rest =>
    let merged := rest.foldl (mergeStep globalState) L0
    let clamped := if tw = .one then merged else
      ⟨vMax0 merged.numByTopic, mMax0 merged.numByTopicWord⟩
    (clamped, localData.map (fun _ => clamped))

/-- Shape predicate for a `K × V` count matrix: `K` rows of length `V`. -/
def MShape (K V : ℕ) (m : List (List ℚ)) : Prop :=
  m.length = K ∧ ∀ i, i < K → (m.getD i []).length = V

/-- Shape predicate for a sufficient-statistics record: a length-`K` topic
vector and a `K × V` topic-word matrix. -/
def StateShape (K V : ℕ) (s : ModelStateLDA) : Prop :=
  s.numByTopic.length = K ∧ MShape K V s.numByTopicWord

/-- From `LDAModel::calcDigammaSum(list, len, alpha)`:
`Σ_{i<len} (digamma(list(i) + alpha) - digamma(alpha))`, with the external
`math::digammaT` passed as the function parameter `digamma`. -/
def calcDigammaSum (digamma : ℚ → ℚ) (list : ℕ → ℚ) (len : ℕ) (alpha : ℚ) :
    ℚ :=
  ((List.range len).map (fun i => digamma (list i + alpha) - digamma alpha)).sum

/-- A default document value for out-of-range list access. -/
def docDflt : DocumentLDA := ⟨[], [], [], []⟩

/-- The inner `for (k = 0; k < K; ++k)` loop of `optimizeParameters`: for each
`k` in order, computes `nom` from the current `alphas(k)` (not yet updated at
index `k`) and replaces `alphas(k)` with
`max(nom / denom * alphas(k), 1e-5)`; the float literal `1e-5f` is modelled by
the exact rational `1/100000`. -/
def optimInnerLoop (digamma : ℚ → ℚ) (docs : List DocumentLDA) (denom : ℚ) :
    List ℕ → List ℚ → List ℚ
  | [], alphas => alphas
  | k :: ks, alphas =>
    let nom := calcDigammaSum digamma
      (fun i => (docs.getD i docDflt).numByTopic.getD k 0) docs.length
      (alphas.getD k 0)
    optimInnerLoop digamma docs denom ks
      (alphas.set k (max (nom / denom * alphas.getD k 0) (1 / 100000)))

/-- One of the ten fixed-point iterations of `optimizeParameters`: `denom` is
computed once from the pre-iteration `alphas.sum()`, then the inner loop
updates every `alphas(k)` in order. -/
def optimIter (digamma : ℚ → ℚ) (tw : TermWeight) (docs : List DocumentLDA)
    (K : ℕ) (alphas : List ℚ) : List ℚ :=
  let denom := calcDigammaSum digamma
    (fun i => getSumWordWeight tw (docs.getD i docDflt)) docs.length alphas.sum
  optimInnerLoop digamma docs denom (List.range K) alphas

/-- From `LDAModel::optimizeParameters`: exactly ten fixed-point iterations
(`for (i = 0; i < 10; ++i)`). -/
def optimizeParameters (digamma : ℚ → ℚ) (tw : TermWeight)
    (docs : List DocumentLDA) (K : ℕ) (alphas : List ℚ) : List ℚ :=
  (optimIter digamma tw docs K)^[10] alphas

/-- The guard on line 258 of the source
(`iterated >= burnIn && optimInterval && (iterated + 1) % optimInterval == 0`)
that decides whether `trainOne` runs the hyperparameter optimizer after the
merge; `iterated` is the 0-based count of completed training rounds. -/
def optimCondition (iterated burnIn optimInterval : ℕ) : Bool :=
  decide (burnIn ≤ iterated) && (optimInterval != 0) &&
    ((iterated + 1) % optimInterval == 0)

/-- The effect of one `trainOne` call on the `alphas` vector: the optimizer is
run exactly when `optimCondition` holds; no other statement of `trainOne`
touches `alphas`. -/
def trainOneAlphas (digamma : ℚ → ℚ) (tw : TermWeight)
    (docs : List DocumentLDA) (K : ℕ) (iterated burnIn optimInterval : ℕ)
    (alphas : List ℚ) : List ℚ :=
  if optimCondition iterated burnIn optimInterval then
    optimizeParameters digamma tw docs K alphas
  else alphas

/-- The fixed context read by the sampler: term weight mode, `K`, the real
vocabulary size `realV`, the per-topic `alphas` vector and the scalar `eta`. -/
structure SamplerCfg where
  tw : TermWeight
  K : ℕ
  V : ℕ
  alphas : List ℚ
  eta : ℚ

/-- In-place `l[i] += x` on a rational vector (no-op when `i` is out of
range, as every source call site asserts the index in range). -/
def listAddAt (l : List ℚ) (i : ℕ) (x : ℚ) : List ℚ :=
  l.set i (l.getD i 0 + x)

/-- In-place `m(i, j) += x` on a rational matrix. -/
def matAddAt (m : List (List ℚ)) (i j : ℕ) (x : ℚ) : List (List ℚ) :=
  m.set i (listAddAt (m.getD i []) j x)

/-- The weight applied by `addWordTo` for the token at position `pid`:
`1` in `one` mode, `wordWeights[pid]` otherwise. -/
def weightAt (tw : TermWeight) (doc : DocumentLDA) (pid : ℕ) : ℚ :=
  if tw = .one then 1 else doc.wordWeights.getD pid 0

/-- From `LDAModel::addWordTo<INC>`: adds `INC * weight` to
`doc.numByTopic[tid]`, `ld.numByTopic[tid]` and `ld.numByTopicWord(tid, vid)`. -/
def addWordTo (tw : TermWeight) (inc : ℚ) (ld : ModelStateLDA)
    (doc : DocumentLDA) (pid vid tid : ℕ) : ModelStateLDA × DocumentLDA :=
  let w := weightAt tw doc pid
  (⟨listAddAt ld.numByTopic tid (inc * w),
    matAddAt ld.numByTopicWord tid vid (inc * w)⟩,
   ⟨doc.words, doc.Zs, doc.wordWeights, listAddAt doc.numByTopic tid (inc * w)⟩)

/-- The unnormalized proposal built by `getZLikelihoods` before the prefix
sum: for every `k < K`,
`(doc.numByTopic[k] + alphas[k]) * (ld.numByTopicWord(k, vid) + eta) / (ld.numByTopic[k] + V * eta)`. -/
def zLikelihoodRaw (cfg : SamplerCfg) (ld : ModelStateLDA)
    (doc : DocumentLDA) (vid : ℕ) : List ℚ :=
  (List.range cfg.K).map (fun k =>
    (doc.numByTopic.getD k 0 + cfg.alphas.getD k 0)
      * ((ld.numByTopicWord.getD k []).getD vid 0 + cfg.eta)
      / (ld.numByTopic.getD k 0 + (cfg.V : ℚ) * cfg.eta))

/-- Modelled from the spec: `sample::prefixSum` (`Utils/sample.hpp`, not under
`src/`), the in-place inclusive running sum of the proposal array, with
accumulator `acc`. -/
def cumSum (acc : ℚ) : List ℚ → List ℚ
  | [] => []
  | x :: xs => (acc + x) :: cumSum (acc + x) xs

/-- From `LDAModel::getZLikelihoods`: the raw proposal followed by the
in-place prefix sum. -/
def getZLikelihoods (cfg : SamplerCfg) (ld : ModelStateLDA)
    (doc : DocumentLDA) (vid : ℕ) : List ℚ :=
  cumSum 0 (zLikelihoodRaw cfg ld doc vid)

/-- Modelled from the spec: `sample::sampleFromDiscreteAcc`
(`Utils/sample.hpp`, not under `src/`).  Given the cumulative array `p` and
the uniform draw `u` from `[0, p[K-1])`, selects the smallest `k` with
`p[k] ≥ u`. -/
def sampleFromDiscreteAcc (p : List ℚ) (u : ℚ) : ℕ :=
  p.findIdx (fun x => decide (u ≤ x))

/-- The mutable data of one `sampleDocument` call: the document, the
worker-local state and the stream of uniform draws standing in for the
worker's PRNG. -/
structure SampleState where
  doc : DocumentLDA
  ld : ModelStateLDA
  us : List ℚ

/-- The body of the `sampleDocument` loop for one in-vocab position `i` with
vocab id `v`: decrement the current assignment, build the cumulative
proposal, select the new topic from the next uniform draw, store it in `Zs`
and increment its contribution. -/
def sampleOne (cfg : SamplerCfg) (i v : ℕ) (s : SampleState) : SampleState :=
  let dec := addWordTo cfg.tw (-1) s.ld s.doc i v (s.doc.Zs.getD i 0)
  let dist := getZLikelihoods cfg dec.1 dec.2 v
  let z := sampleFromDiscreteAcc dist (s.us.headD 0)
  let doc2 : DocumentLDA := ⟨dec.2.words, dec.2.Zs.set i z, dec.2.wordWeights, dec.2.numByTopic⟩
  let inc := addWordTo cfg.tw 1 dec.1 doc2 i v z
  ⟨inc.2, inc.1, s.us.tail⟩

/-- The position loop of `sampleDocument`, walking the token list with its
position index: out-of-vocab positions (`words[w] >= realV`) are skipped
entirely (`continue`). -/
def sampleWords (cfg : SamplerCfg) : List ℕ → ℕ → SampleState → SampleState
  | [], _, s => s
  | v :: rest, i, s =>
    sampleWords cfg rest (i + 1) (if v < cfg.V then sampleOne cfg i v s else s)

/-- From `LDAModel::sampleDocument`: one Gibbs pass over every token position
of the document. -/
def sampleDocument (cfg : SamplerCfg) (s : SampleState) : SampleState :=
  sampleWords cfg s.doc.words 0 s

/-- The mutable data of one `initializeDocState` call: the document, the
state receiving the counts, and the stream of uniform topic draws standing in
for the init generator. -/
structure InitState where
  doc : DocumentLDA
  ld : ModelStateLDA
  zs : List ℕ

/-- From `LDAModel::prepareDoc`: allocates `numByTopic` (zeroed, length `K`)
and `Zs` (length `words.size()`, value-initialized storage modelled as `0`),
and in the weighted modes fills `wordWeights` with `1`
(`wordWeights.resize(wordSize, 1)`). -/
def prepareDoc (tw : TermWeight) (K : ℕ) (doc : DocumentLDA) : DocumentLDA :=
  ⟨doc.words, List.replicate doc.words.length 0,
   if tw = .one then doc.wordWeights else List.replicate doc.words.length 1,
   List.replicate K 0⟩

/-- In-document term frequency of vocab id `v` (the `tf` array that
`initializeDocState` precomputes for the `pmi` mode). -/
def tfOf (words : List ℕ) (v : ℕ) : ℕ := words.countP (fun w => w == v)

/-- The per-token weight written by `initializeDocState` at an in-vocab
position with vocab id `v`: `vocabWeights[v]` in `idf` mode;
`max(log(tf[v] / vocabWeights[v] / |words|), 0)` in `pmi` mode (`log` is the
external `std::log`, passed as the parameter `logF`); not written in `one`
mode. -/
def initWeight (logF : ℚ → ℚ) (tw : TermWeight) (vocabWeights : List ℚ)
    (words : List ℕ) (v : ℕ) : ℚ :=
  match tw with
  | .one => 1
  | .idf => vocabWeights.getD v 0
  | .pmi => max (logF ((tfOf words v : ℚ) / vocabWeights.getD v 0 /
      (words.length : ℚ))) 0

/-- The body of the `initializeDocState` loop for one in-vocab position `i`
with vocab id `v`: in the weighted modes `wordWeights[i]` is set to `wf v`;
then `updateStateWithDoc` draws the topic from the generator stream, stores
it in `Zs[i]` and applies `addWordTo<1>`. -/
def initOne (tw : TermWeight) (wf : ℕ → ℚ) (i v : ℕ) (s : InitState) :
    InitState :=
  let doc1 : DocumentLDA := if tw = .one then s.doc
              else ⟨s.doc.words, s.doc.Zs, s.doc.wordWeights.set i (wf v),
                s.doc.numByTopic⟩
  let z := s.zs.headD 0
  let doc2 : DocumentLDA := ⟨doc1.words, doc1.Zs.set i z, doc1.wordWeights,
    doc1.numByTopic⟩
  let inc := addWordTo tw 1 s.ld doc2 i v z
  ⟨inc.2, inc.1, s.zs.tail⟩

/-- The position loop of `initializeDocState`: out-of-vocab positions are
skipped (`continue`) and neither draw a topic nor touch any count or weight. -/
def initLoop (tw : TermWeight) (V : ℕ) (wf : ℕ → ℚ) :
    List ℕ → ℕ → InitState → InitState
  | [], _, s => s
  | v :: rest, i, s =>
    initLoop tw V wf rest (i + 1) (if v < V then initOne tw wf i v s else s)

/-- From `LDAModel::initializeDocState`: `prepareDoc`, the `pmi` term
frequency precomputation, then the position loop. -/
def initDocState (logF : ℚ → ℚ) (tw : TermWeight) (K V : ℕ)
    (vocabWeights : List ℚ) (doc : DocumentLDA) (ld : ModelStateLDA)
    (zs : List ℕ) : InitState :=
  let doc0 := prepareDoc tw K doc
  initLoop tw V (initWeight logF tw vocabWeights doc.words) doc0.words 0
    ⟨doc0, ld, zs⟩

/-- In-place `l[i] += 1` on a natural-number vector. -/
def natIncAt (l : List ℕ) (i : ℕ) : List ℕ := l.set i (l.getD i 0 + 1)

/-- From `LDAModel::_getTopicsCount`: the integer count of in-vocab token
positions currently assigned to each topic, across all documents. -/
def getTopicsCount (K V : ℕ) (docs : List DocumentLDA) : List ℕ :=
  docs.foldl (fun cnt doc =>
    (List.range doc.Zs.length).foldl (fun cnt i =>
      if doc.words.getD i 0 < V then natIncAt cnt (doc.Zs.getD i 0) else cnt)
      cnt)
    (List.replicate K 0)

/-- From `LDAModel::getLLDocs` (the document part of the log-likelihood);
`lgamma` is the external `math::lgammaT`, passed as a parameter. -/
def getLLDocs (lgamma : ℚ → ℚ) (tw : TermWeight) (alphas : List ℚ) (K : ℕ)
    (docs : List DocumentLDA) : ℚ :=
  docs.foldl (fun ll doc =>
    let ll := ll -
      (lgamma (getSumWordWeight tw doc + alphas.sum) - lgamma alphas.sum)
    (List.range K).foldl (fun ll k =>
      ll + (lgamma (doc.numByTopic.getD k 0 + alphas.getD k 0) -
        lgamma (alphas.getD k 0))) ll) 0

/-- From `LDAModel::getLLRest` (the topic-word part of the log-likelihood):
vocab entries with a zero count are skipped (`continue`). -/
def getLLRest (lgamma : ℚ → ℚ) (eta : ℚ) (K V : ℕ) (ld : ModelStateLDA) : ℚ :=
  let lgammaEta := lgamma eta
  (List.range K).foldl (fun ll k =>
    let ll := ll - lgamma (ld.numByTopic.getD k 0 + (V : ℚ) * eta)
    (List.range V).foldl (fun ll v =>
      if (ld.numByTopicWord.getD k []).getD v 0 = 0 then ll
      else ll + (lgamma ((ld.numByTopicWord.getD k []).getD v 0 + eta) -
        lgammaEta)) ll)
    (lgamma ((V : ℚ) * eta) * K)

/-- From `LDAModel::getLL`: document part plus topic-word part of the global
state. -/
def getLL (lgamma : ℚ → ℚ) (tw : TermWeight) (alphas : List ℚ) (eta : ℚ)
    (K V : ℕ) (docs : List DocumentLDA) (gs : ModelStateLDA) : ℚ :=
  getLLDocs lgamma tw alphas K docs + getLLRest lgamma eta K V gs

/-- One worker's pass over the documents it owns during an inference round:
each listed document index is sampled against the worker's local replica, and
the updated document is written back. -/
def runWorker (cfg : SamplerCfg) :
    List ℕ → ModelStateLDA → List ℚ → List DocumentLDA →
    ModelStateLDA × List ℚ × List DocumentLDA
  | [], ld, us, docs => (ld, us, docs)
  | id :: ids, ld, us, docs =>
    let s := sampleDocument cfg ⟨docs.getD id docDflt, ld, us⟩
    runWorker cfg ids s.ld s.us (docs.set id s.doc)

/-- All workers of one round, each with its local replica, its document index
list and its uniform-draw stream.  Documents are partitioned across workers,
so running them in sequence is observationally the round's parallel
execution. -/
def runRound (cfg : SamplerCfg) :
    List (ModelStateLDA × List ℕ × List ℚ) → List DocumentLDA →
    List ModelStateLDA × List DocumentLDA
  | [], docs => ([], docs)
  | w :: ws, docs =>
    let r := runWorker cfg w.2.1 w.1 w.2.2 docs
    let rest := runRound cfg ws r.2.2
    (r.1 :: rest.1, rest.2)

/-- Sequential initialization of a batch of held-out documents into a
temporary state, threading the topic-draw stream (the `rgc` generator of
`_infer`). -/
def initDocsInto (logF : ℚ → ℚ) (tw : TermWeight) (K V : ℕ)
    (vocabWeights : List ℚ) : List DocumentLDA → ModelStateLDA → List ℕ →
    List DocumentLDA × ModelStateLDA × List ℕ
  | [], ld, zs => ([], ld, zs)
  | doc :: ds, ld, zs =>
    let r := initDocState logF tw K V vocabWeights doc ld zs
    let rest := initDocsInto logF tw K V vocabWeights ds r.ld r.zs
    (r.doc :: rest.1, rest.2.1, rest.2.2)

/-- From `LDAModel::_infer<_Together = true>` (joint mode): a temporary state
is copied from the frozen global state, all held-out documents are
initialized into it, `maxIter` rounds of worker sampling plus `mergeState`
run on local replicas of the temporary state, and the single reported score
is `(LLRest(tmp) - LLRest(frozen)) + LLDocs(held-out)`.  The per-round
document schedule (the `forRandom` chunk permutations of `Utils`, not under
`src/`) and the per-worker draw streams are supplied by `schedule`.  The
first component of the result is the model's global state as the call leaves
it. -/
def inferTogether (lgamma logF : ℚ → ℚ) (cfg : SamplerCfg)
    (vocabWeights : List ℚ) (globalState : ModelStateLDA)
    (docs : List DocumentLDA) (zs : List ℕ) (maxIter numWorkers : ℕ)
    (schedule : ℕ → List (List ℕ × List ℚ)) :
    ModelStateLDA × List DocumentLDA × List ℚ :=
  let ini := initDocsInto logF cfg.tw cfg.K cfg.V vocabWeights docs
    globalState zs
  let step := fun (st : ModelStateLDA × List ModelStateLDA × List DocumentLDA)
      (it : ℕ) =>
    let round := runRound cfg
      (List.zipWith (fun ld (p : List ℕ × List ℚ) => (ld, p.1, p.2))
        st.2.1 (schedule it)) st.2.2
    let m := mergeState cfg.tw st.1 round.1
    (m.1, m.2, round.2)
  let fin := (List.range maxIter).foldl step
    (ini.2.1, List.replicate numWorkers ini.2.1, ini.1)
  let ll := getLLRest lgamma cfg.eta cfg.K cfg.V fin.1 -
      getLLRest lgamma cfg.eta cfg.K cfg.V globalState +
      getLLDocs lgamma cfg.tw cfg.alphas cfg.K fin.2.2
  (globalState, fin.2.2, [ll])

/-- From `LDAModel::_infer<_Together = false>` (independent mode): one task
per document; each clones the frozen global state into a private temporary
state, initializes only its document, samples it `maxIter` times and reports
`(LLRest(tmp) - LLRest(frozen)) + LLDocs({d})`.  `zsOf` and `usOf` are the
per-task streams of the task's fresh `RANDGEN rgc{}`.  The first component of
the result is the model's global state as the call leaves it. -/
def inferIndependent (lgamma logF : ℚ → ℚ) (cfg : SamplerCfg)
    (vocabWeights : List ℚ) (globalState : ModelStateLDA)
    (docs : List DocumentLDA) (zsOf : ℕ → List ℕ) (usOf : ℕ → List ℚ)
    (maxIter : ℕ) : ModelStateLDA × List DocumentLDA × List ℚ :=
  let gllRest := getLLRest lgamma cfg.eta cfg.K cfg.V globalState
  let results := (List.range docs.length).map (fun d =>
    let ini := initDocState logF cfg.tw cfg.K cfg.V vocabWeights
      (docs.getD d docDflt) globalState (zsOf d)
    let fin := (sampleDocument cfg)^[maxIter] ⟨ini.doc, ini.ld, usOf d⟩
    (fin.doc, getLLRest lgamma cfg.eta cfg.K cfg.V fin.ld - gllRest +
      getLLDocs lgamma cfg.tw cfg.alphas cfg.K [fin.doc]))
  (globalState, results.map (fun r => r.1), results.map (fun r => r.2))

/-- The in-vocab tokens of a word list paired with the topic draws they
consume, in order: out-of-vocab tokens appear in no pair and consume no
draw.  Used to state which contributions the init loop applies. -/
def inVocabPairs (V : ℕ) : List ℕ → List ℕ → List (ℕ × ℕ)
  | [], _ => []
  | v :: rest, zs =>
    if v < V then (v, zs.headD 0) :: inVocabPairs V rest zs.tail
    else inVocabPairs V rest zs

/-- The weight a token with vocab id `v` carries into the counts: `1` in
`one` mode, the initialized per-token weight `wf v` otherwise. -/
def wEffect (tw : TermWeight) (wf : ℕ → ℚ) (v : ℕ) : ℚ :=
  if tw = .one then 1 else wf v

/-- The number of in-vocab token positions of document `d` assigned to topic
`k` — the per-document content of `count_by_topic`. -/
def inVocabCountByTopic (V k : ℕ) (d : DocumentLDA) : ℕ :=
  (List.range d.Zs.length).countP
    (fun i => decide (d.words.getD i 0 < V) && (d.Zs.getD i 0 == k))

/-- A concrete sampler context with `K = 1`, `V = 1`, `alphas = [1/10]`,
`eta = 1/100`, used to evaluate the sampler on an explicit input. -/
def exCfg : SamplerCfg := ⟨.one, 1, 1, [1/10], 1/100⟩

/-- A concrete one-token document (vocab id 0, assigned topic 0). -/
def exDoc : DocumentLDA := ⟨[0], [0], [], [1]⟩

/-- A concrete worker-local state matching `exDoc`. -/
def exLd : ModelStateLDA := ⟨[1], [[1]]⟩

/-- A concrete sampler state pairing `exDoc`, `exLd` and the draw stream
`[0]`. -/
def exS : SampleState := ⟨exDoc, exLd, [0]⟩

/-- The decremented pair produced at position 0 of `exS`. -/
def exDec : ModelStateLDA × DocumentLDA :=
  addWordTo exCfg.tw (-1) exS.ld exS.doc 0 0 (exS.doc.Zs.getD 0 0)

/-- The raw proposal built from the decremented counts of `exDec`. -/
def exP : List ℚ := zLikelihoodRaw exCfg exDec.1 exDec.2 0

/-- The prefix-summed proposal of `exP`. -/
def exQ : List ℚ := cumSum 0 exP

/-- The topic selected from `exQ` at draw 0. -/
def exZ : ℕ := sampleFromDiscreteAcc exQ 0

theorem getD_set_self {α : Type} (l : List α) (i : ℕ) (x : α) {d : α}
    (h : i < l.length) : (l.set i x).getD i d = x := by
  rw [List.getD_eq_getElem?_getD]
  simp [List.getElem?_set, h]

theorem getD_set_ne {α : Type} (l : List α) (i j : ℕ) (x : α) {d : α}
    (h : i ≠ j) : (l.set i x).getD j d = l.getD j d := by
  rw [List.getD_eq_getElem?_getD, List.getD_eq_getElem?_getD]
  simp [List.getElem?_set, h]

theorem getD_replicate {α : Type} (K k : ℕ) (c : α) {d : α} (h : k < K) :
    (List.replicate K c).getD k d = c := by
  rw [List.getD_eq_getElem?_getD]
  simp [List.getElem?_replicate, h]

theorem getD_range_map (f : ℕ → ℚ) (K k : ℕ) (h : k < K) :
    ((List.range K).map f).getD k 0 = f k := by
  rw [List.getD_eq_getElem?_getD]
  simp [List.getElem?_map, List.getElem?_range h]

theorem map_eq_range_map (f : ℚ → ℚ) (l : List ℚ) :
    l.map f = (List.range l.length).map (fun k => f (l.getD k 0)) := by
  refine List.ext_getElem (by simp) ?_
  intro i h1 h2
  have hi : i < l.length := by simpa using h1
  simp only [List.getElem_map, List.getElem_range]
  rw [List.getD_eq_getElem l 0 hi]

theorem vAdd_length (a b : List ℚ) : (vAdd a b).length = min a.length b.length :=
  List.length_zipWith ..

theorem vSub_length (a b : List ℚ) : (vSub a b).length = min a.length b.length :=
  List.length_zipWith ..

theorem vAdd_getD (a b : List ℚ) (k : ℕ) (ha : k < a.length)
    (hb : k < b.length) : (vAdd a b).getD k 0 = a.getD k 0 + b.getD k 0 := by
  have h : k < (vAdd a b).length := by
    rw [vAdd_length]; omega
  rw [List.getD_eq_getElem _ 0 h, List.getD_eq_getElem _ 0 ha,
    List.getD_eq_getElem _ 0 hb]
  simp [vAdd]

theorem vSub_getD (a b : List ℚ) (k : ℕ) (ha : k < a.length)
    (hb : k < b.length) : (vSub a b).getD k 0 = a.getD k 0 - b.getD k 0 := by
  have h : k < (vSub a b).length := by
    rw [vSub_length]; omega
  rw [List.getD_eq_getElem _ 0 h, List.getD_eq_getElem _ 0 ha,
    List.getD_eq_getElem _ 0 hb]
  simp [vSub]

theorem vMax0_getD (a : List ℚ) (k : ℕ) (ha : k < a.length) :
    (vMax0 a).getD k 0 = max (a.getD k 0) 0 := by
  have h : k < (vMax0 a).length := by simpa [vMax0] using ha
  rw [List.getD_eq_getElem _ 0 h, List.getD_eq_getElem _ 0 ha]
  simp [vMax0]

/-- C1.  The claim says `getTopicsByDoc` divides `numByTopic[k] + alphas[k]`
by `sumWordWeight + Σ alphas[k]` using the per-topic vector `alphas`.  The
source uses the SCALAR `alpha` and `size_t`-truncates each count: every
entry is `(trunc(numByTopic[k]) + alpha) / (sumWordWeight + K * alpha)`,
where the truncation is the identity on integer counts (`one` mode); for an
empty document every entry is `alpha / (K * alpha)`, as the claim states. -/
theorem lda_C1 (tw : TermWeight) (K : ℕ) (alpha : ℚ) (d : DocumentLDA)
    (hlen : d.numByTopic.length = K) :
    getTopicsByDoc tw K alpha d =
      (List.range K).map (fun k =>
        (truncCount (d.numByTopic.getD k 0) + alpha) /
          (getSumWordWeight tw d + (K : ℚ) * alpha)) ∧
    (∀ m : ℤ, truncCount (m : ℚ) = (m : ℚ)) ∧
    (d.words = [] → d.wordWeights = [] → d.numByTopic = List.replicate K 0 →
      ∀ k, k < K → (getTopicsByDoc tw K alpha d).getD k 0 =
        alpha / ((K : ℚ) * alpha)) := by
  have hmain : getTopicsByDoc tw K alpha d =
      (List.range K).map (fun k =>
        (truncCount (d.numByTopic.getD k 0) + alpha) /
          (getSumWordWeight tw d + (K : ℚ) * alpha)) := by
    unfold getTopicsByDoc
    rw [List.take_of_length_le (le_of_eq hlen), map_eq_range_map, hlen]
  refine ⟨hmain, fun m => by simp [truncCount], ?_⟩
  intro hw hww hnum k hk
  rw [hmain, getD_range_map _ _ _ hk, hnum, getD_replicate _ _ _ hk]
  have hswc : getSumWordWeight tw d = 0 := by
    cases tw <;> simp [getSumWordWeight, hw, hww]
  have ht0 : truncCount 0 = 0 := by simp [truncCount]
  rw [hswc, ht0]
  ring_nf

/-- C1 counterexample: with the scalar `alpha = 1/10` and the (optimizer
produced) vector `alphas = [1/5, 1/10]`, the source function disagrees with
the claim's `alphas`-based formula on a one-token document. -/
theorem lda_C1_counterexample :
    getTopicsByDoc .one 2 (1/10) ⟨[0], [0], [], [1, 0]⟩ ≠
      topicsByDocSpec .one [1/5, 1/10] ⟨[0], [0], [], [1, 0]⟩ := by
  intro h
  have h0 := congrArg (fun l => l.getD 0 0) h
  simp only [getTopicsByDoc, topicsByDocSpec, getSumWordWeight,
    truncCount] at h0
  norm_num [List.getD, Int.floor_one] at h0

theorem lda_C1_witness :
    getTopicsByDoc .one 2 (1/10) ⟨[], [], [], [0, 0]⟩ =
      (List.range 2).map (fun k =>
        (truncCount
            ((⟨[], [], [], [0, 0]⟩ : DocumentLDA).numByTopic.getD k 0) +
          1/10) /
          (getSumWordWeight .one ⟨[], [], [], [0, 0]⟩ + (2 : ℚ) * (1/10))) ∧
    (∀ m : ℤ, truncCount (m : ℚ) = (m : ℚ)) ∧
    ((⟨[], [], [], [0, 0]⟩ : DocumentLDA).words = [] →
      (⟨[], [], [], [0, 0]⟩ : DocumentLDA).wordWeights = [] →
      (⟨[], [], [], [0, 0]⟩ : DocumentLDA).numByTopic = List.replicate 2 0 →
      ∀ k, k < 2 →
        (getTopicsByDoc .one 2 (1/10) ⟨[], [], [], [0, 0]⟩).getD k 0 =
          (1/10 : ℚ) / ((2 : ℚ) * (1/10))) :=
  lda_C1 .one 2 (1/10) ⟨[], [], [], [0, 0]⟩ rfl

/-- C3.  The optimizer guard of `trainOne` holds exactly when
`burn_in ≤ r`, `optim_interval > 0` and `(r + 1) % optim_interval = 0`
(`r` the 0-based count of completed rounds), and with `optim_interval = 0`
a training round leaves `alphas` unchanged. -/
theorem lda_C3 (digamma : ℚ → ℚ) (tw : TermWeight) (docs : List DocumentLDA)
    (K r burnIn optimInterval : ℕ) (alphas : List ℚ) :
    (optimCondition r burnIn optimInterval = true ↔
      (burnIn ≤ r ∧ 0 < optimInterval ∧ (r + 1) % optimInterval = 0)) ∧
    (trainOneAlphas digamma tw docs K r burnIn optimInterval alphas =
      if optimCondition r burnIn optimInterval then
        optimizeParameters digamma tw docs K alphas
      else alphas) ∧
    (optimInterval = 0 →
      trainOneAlphas digamma tw docs K r burnIn optimInterval alphas =
        alphas) := by
  refine ⟨?_, rfl, ?_⟩
  · simp [optimCondition, Nat.pos_iff_ne_zero, and_assoc]
  · intro h
    subst h
    simp [trainOneAlphas, optimCondition]

theorem lda_C3_witness :
    (optimCondition 59 50 10 = true ↔
      (50 ≤ 59 ∧ 0 < 10 ∧ (59 + 1) % 10 = 0)) ∧
    (trainOneAlphas id .one [] 1 59 50 10 [1/10] =
      if optimCondition 59 50 10 then
        optimizeParameters id .one [] 1 [1/10]
      else [1/10]) ∧
    (10 = 0 → trainOneAlphas id .one [] 1 59 50 10 [1/10] = [1/10]) :=
  lda_C3 id .one [] 1 59 50 10 [1/10]

/-- C4 (amended).  `create` returns `nullptr` exactly when the raw term
weight value is outside `{one, idf, pmi}`; it performs no validation of `K`,
`alpha` or `eta`, and on success the model carries the given `K`, `alpha`,
`eta` and `alphas = replicate K alpha`. -/
theorem lda_C4 (twRaw K : ℕ) (alpha eta : ℚ) :
    ((ILDAModel.create twRaw K alpha eta).isSome = true ↔ twRaw < 3) ∧
    (∀ m, ILDAModel.create twRaw K alpha eta = some m →
      m.K = K ∧ m.alpha = alpha ∧ m.eta = eta ∧
        m.alphas = List.replicate K alpha) := by
  constructor
  · unfold ILDAModel.create
    split_ifs with h0 h1 h2 <;> simp <;> omega
  · intro m hm
    unfold ILDAModel.create at hm
    split_ifs at hm <;>
      (cases hm; exact ⟨rfl, rfl, rfl, rfl⟩)

/-- C4 counterexample: with `K = 0 < 1`, `alpha = -1 ≤ 0` and `eta = -1 ≤ 0`,
`create` still returns a model instead of failing. -/
theorem lda_C4_counterexample :
    (0 : ℕ) < 1 ∧ (-1 : ℚ) ≤ 0 ∧
      (ILDAModel.create 0 0 (-1) (-1)).isSome = true := by
  decide

theorem lda_C4_witness :
    ((ILDAModel.create 1 3 (1/10) (1/100)).isSome = true ↔ 1 < 3) ∧
    (∀ m, ILDAModel.create 1 3 (1/10) (1/100) = some m →
      m.K = 3 ∧ m.alpha = 1/10 ∧ m.eta = 1/100 ∧
        m.alphas = List.replicate 3 (1/10)) :=
  lda_C4 1 3 (1/10) (1/100)

theorem mAdd_length (A B : List (List ℚ)) :
    (mAdd A B).length = min A.length B.length :=
  List.length_zipWith ..

theorem mSub_length (A B : List (List ℚ)) :
    (mSub A B).length = min A.length B.length :=
  List.length_zipWith ..

theorem mAdd_getD (A B : List (List ℚ)) (i : ℕ) (hA : i < A.length)
    (hB : i < B.length) :
    (mAdd A B).getD i [] = vAdd (A.getD i []) (B.getD i []) := by
  have h : i < (mAdd A B).length := by rw [mAdd_length]; omega
  rw [List.getD_eq_getElem _ [] h, List.getD_eq_getElem _ [] hA,
    List.getD_eq_getElem _ [] hB]
  simp [mAdd]

theorem mSub_getD (A B : List (List ℚ)) (i : ℕ) (hA : i < A.length)
    (hB : i < B.length) :
    (mSub A B).getD i [] = vSub (A.getD i []) (B.getD i []) := by
  have h : i < (mSub A B).length := by rw [mSub_length]; omega
  rw [List.getD_eq_getElem _ [] h, List.getD_eq_getElem _ [] hA,
    List.getD_eq_getElem _ [] hB]
  simp [mSub]

theorem mMax0_getD (A : List (List ℚ)) (i : ℕ) (hA : i < A.length) :
    (mMax0 A).getD i [] = vMax0 (A.getD i []) := by
  have h : i < (mMax0 A).length := by simpa [mMax0] using hA
  rw [List.getD_eq_getElem _ [] h, List.getD_eq_getElem _ [] hA]
  simp [mMax0]

theorem mergeStep_shape (G : ModelStateLDA) (K V : ℕ)
    (hGn : G.numByTopic.length = K) (hGm : MShape K V G.numByTopicWord)
    (acc Li : ModelStateLDA) (hacc : StateShape K V acc)
    (hLi : StateShape K V Li) : StateShape K V (mergeStep G acc Li) := by
  have han := hacc.1
  have ham := hacc.2.1
  have hars := hacc.2.2
  have hln := hLi.1
  have hlm := hLi.2.1
  have hlrs := hLi.2.2
  refine ⟨?_, ?_, ?_⟩
  · simp [mergeStep, vAdd_length, vSub_length, han, hln, hGn]
  · simp [mergeStep, mAdd_length, mSub_length, ham, hlm, hGm.1]
  · intro i hi
    have hsub : (mSub Li.numByTopicWord G.numByTopicWord).getD i [] =
        vSub (Li.numByTopicWord.getD i [])
          (G.numByTopicWord.getD i []) :=
      mSub_getD _ _ i (by rw [hlm]; omega) (by rw [hGm.1]; omega)
    have hadd : (mergeStep G acc Li).numByTopicWord.getD i [] =
        vAdd (acc.numByTopicWord.getD i [])
          ((mSub Li.numByTopicWord G.numByTopicWord).getD i []) := by
      refine mAdd_getD _ _ i (by rw [ham]; omega) ?_
      rw [mSub_length, hlm, hGm.1]; omega
    rw [hadd, hsub, vAdd_length, vSub_length, hars i hi, hlrs i hi, hGm.2 i hi]
    simp

theorem mergeFold_spec (G : ModelStateLDA) (K V : ℕ)
    (hGn : G.numByTopic.length = K) (hGm : MShape K V G.numByTopicWord)
    (rest : List ModelStateLDA) :
    ∀ (acc : ModelStateLDA), StateShape K V acc →
      (∀ L ∈ rest, StateShape K V L) →
      StateShape K V (rest.foldl (mergeStep G) acc) ∧
      (∀ k, k < K → (rest.foldl (mergeStep G) acc).numByTopic.getD k 0 =
        acc.numByTopic.getD k 0 +
          (rest.map (fun Li =>
            Li.numByTopic.getD k 0 - G.numByTopic.getD k 0)).sum) ∧
      (∀ k v, k < K → v < V →
        ((rest.foldl (mergeStep G) acc).numByTopicWord.getD k []).getD v 0 =
          (acc.numByTopicWord.getD k []).getD v 0 +
            (rest.map (fun Li =>
              (Li.numByTopicWord.getD k []).getD v 0 -
                (G.numByTopicWord.getD k []).getD v 0)).sum) := by
  induction rest with
  | nil =>
    intro acc hacc _
    exact ⟨hacc, fun k _ => by simp, fun k v _ _ => by simp⟩
  | cons Li rest' ih =>
    intro acc hacc hall
    have hLi : StateShape K V Li := hall Li (by simp)
    have hstep : StateShape K V (mergeStep G acc Li) :=
      mergeStep_shape G K V hGn hGm acc Li hacc hLi
    obtain ⟨s1, s2, s3⟩ := ih (mergeStep G acc Li) hstep
      (fun L hL => hall L (by simp [hL]))
    have hstepn : ∀ k, k < K → (mergeStep G acc Li).numByTopic.getD k 0 =
        acc.numByTopic.getD k 0 +
          (Li.numByTopic.getD k 0 - G.numByTopic.getD k 0) := by
      intro k hk
      have h1 : (mergeStep G acc Li).numByTopic.getD k 0 =
          acc.numByTopic.getD k 0 +
            (vSub Li.numByTopic G.numByTopic).getD k 0 := by
        refine vAdd_getD _ _ k (by rw [hacc.1]; omega) ?_
        rw [vSub_length, hLi.1, hGn]; omega
      rw [h1, vSub_getD _ _ k (by rw [hLi.1]; omega) (by rw [hGn]; omega)]
    have hstepm : ∀ k v, k < K → v < V →
        ((mergeStep G acc Li).numByTopicWord.getD k []).getD v 0 =
          (acc.numByTopicWord.getD k []).getD v 0 +
            ((Li.numByTopicWord.getD k []).getD v 0 -
              (G.numByTopicWord.getD k []).getD v 0) := by
      intro k v hk hv
      have hrow : (mergeStep G acc Li).numByTopicWord.getD k [] =
          vAdd (acc.numByTopicWord.getD k [])
            (vSub (Li.numByTopicWord.getD k [])
              (G.numByTopicWord.getD k [])) := by
        have h1 : (mergeStep G acc Li).numByTopicWord.getD k [] =
            vAdd (acc.numByTopicWord.getD k [])
              ((mSub Li.numByTopicWord G.numByTopicWord).getD k []) := by
          refine mAdd_getD _ _ k (by rw [hacc.2.1]; omega) ?_
          rw [mSub_length, hLi.2.1, hGm.1]; omega
        rw [h1, mSub_getD _ _ k (by rw [hLi.2.1]; omega) (by rw [hGm.1]; omega)]
      rw [hrow]
      have h2 := vAdd_getD (acc.numByTopicWord.getD k [])
        (vSub (Li.numByTopicWord.getD k []) (G.numByTopicWord.getD k []))
        v (by rw [hacc.2.2 k hk]; omega) ?_
      · rw [h2, vSub_getD _ _ v (by rw [hLi.2.2 k hk]; omega)
          (by rw [hGm.2 k hk]; omega)]
      · rw [vSub_length, hLi.2.2 k hk, hGm.2 k hk]; omega
    refine ⟨s1, ?_, ?_⟩
    · intro k hk
      have := s2 k hk
      simp only [List.foldl_cons] at *
      rw [this, hstepn k hk, List.map_cons, List.sum_cons]
      ring
    · intro k v hk hv
      have := s3 k v hk hv
      simp only [List.foldl_cons] at *
      rw [this, hstepm k v hk hv, List.map_cons, List.sum_cons]
      ring

/-- C2.  At the end of a round, `mergeState` sets the new global state to
`G' = L_0 + Σ_{i ≥ 1} (L_i - G)` elementwise on both `numByTopic` and
`numByTopicWord`; in the weighted modes each entry is then clamped to
`≥ 0` while in `one` mode no clamp is applied; and the merged state is
copied back into every local replica. -/
theorem lda_C2 (tw : TermWeight) (K V : ℕ) (G L0 : ModelStateLDA)
    (rest : List ModelStateLDA) (hG : StateShape K V G)
    (hL0 : StateShape K V L0) (hrest : ∀ L ∈ rest, StateShape K V L) :
    (∀ k, k < K →
      (mergeState tw G (L0 :: rest)).1.numByTopic.getD k 0 =
        (if tw = .one then
          L0.numByTopic.getD k 0 +
            (rest.map (fun Li =>
              Li.numByTopic.getD k 0 - G.numByTopic.getD k 0)).sum
        else max (L0.numByTopic.getD k 0 +
            (rest.map (fun Li =>
              Li.numByTopic.getD k 0 - G.numByTopic.getD k 0)).sum) 0)) ∧
    (∀ k v, k < K → v < V →
      ((mergeState tw G (L0 :: rest)).1.numByTopicWord.getD k []).getD v 0 =
        (if tw = .one then
          (L0.numByTopicWord.getD k []).getD v 0 +
            (rest.map (fun Li =>
              (Li.numByTopicWord.getD k []).getD v 0 -
                (G.numByTopicWord.getD k []).getD v 0)).sum
        else max ((L0.numByTopicWord.getD k []).getD v 0 +
            (rest.map (fun Li =>
              (Li.numByTopicWord.getD k []).getD v 0 -
                (G.numByTopicWord.getD k []).getD v 0)).sum) 0)) ∧
    (mergeState tw G (L0 :: rest)).2.length = (L0 :: rest).length ∧
    (∀ L ∈ (mergeState tw G (L0 :: rest)).2,
      L = (mergeState tw G (L0 :: rest)).1) := by
  obtain ⟨hshape, hn, hm⟩ := mergeFold_spec G K V hG.1 hG.2 rest L0 hL0 hrest
  have hmrg : mergeState tw G (L0 :: rest) =
      (if tw = .one then rest.foldl (mergeStep G) L0 else
        ⟨vMax0 (rest.foldl (mergeStep G) L0).numByTopic,
         mMax0 (rest.foldl (mergeStep G) L0).numByTopicWord⟩,
       (L0 :: rest).map (fun _ =>
        if tw = .one then rest.foldl (mergeStep G) L0 else
          ⟨vMax0 (rest.foldl (mergeStep G) L0).numByTopic,
           mMax0 (rest.foldl (mergeStep G) L0).numByTopicWord⟩)) := by
    by_cases h : tw = .one <;> simp [mergeState, h]
  refine ⟨?_, ?_, ?_, ?_⟩
  · intro k hk
    rw [hmrg]
    by_cases h : tw = .one
    · simp only [h, if_pos rfl]
      exact hn k hk
    · simp only [if_neg h]
      rw [vMax0_getD _ k (by rw [hshape.1]; omega), hn k hk]
  · intro k v hk hv
    rw [hmrg]
    by_cases h : tw = .one
    · simp only [h, if_pos rfl]
      exact hm k v hk hv
    · simp only [if_neg h]
      rw [mMax0_getD _ k (by rw [hshape.2.1]; omega),
        vMax0_getD _ v (by rw [hshape.2.2 k hk]; omega), hm k v hk hv]
  · rw [hmrg]; simp
  · intro L hL
    rw [hmrg] at hL ⊢
    simp only [List.mem_map] at hL
    obtain ⟨_, _, h⟩ := hL
    exact h.symm

theorem lda_C2_witness :
    (∀ k, k < 1 →
      (mergeState .idf ⟨[2], [[2]]⟩ [⟨[3], [[3]]⟩, ⟨[1], [[1]]⟩]).1.numByTopic.getD k 0 =
        (if TermWeight.idf = .one then
          ([3] : List ℚ).getD k 0 +
            ([(⟨[1], [[1]]⟩ : ModelStateLDA)].map (fun Li =>
              Li.numByTopic.getD k 0 -
                (⟨[2], [[2]]⟩ : ModelStateLDA).numByTopic.getD k 0)).sum
        else max (([3] : List ℚ).getD k 0 +
            ([(⟨[1], [[1]]⟩ : ModelStateLDA)].map (fun Li =>
              Li.numByTopic.getD k 0 -
                (⟨[2], [[2]]⟩ : ModelStateLDA).numByTopic.getD k 0)).sum) 0)) ∧
    (∀ k v, k < 1 → v < 1 →
      ((mergeState .idf ⟨[2], [[2]]⟩ [⟨[3], [[3]]⟩, ⟨[1], [[1]]⟩]).1.numByTopicWord.getD k []).getD v 0 =
        (if TermWeight.idf = .one then
          (([[3]] : List (List ℚ)).getD k []).getD v 0 +
            ([(⟨[1], [[1]]⟩ : ModelStateLDA)].map (fun Li =>
              (Li.numByTopicWord.getD k []).getD v 0 -
                ((⟨[2], [[2]]⟩ : ModelStateLDA).numByTopicWord.getD k []).getD v 0)).sum
        else max ((([[3]] : List (List ℚ)).getD k []).getD v 0 +
            ([(⟨[1], [[1]]⟩ : ModelStateLDA)].map (fun Li =>
              (Li.numByTopicWord.getD k []).getD v 0 -
                ((⟨[2], [[2]]⟩ : ModelStateLDA).numByTopicWord.getD k []).getD v 0)).sum) 0)) ∧
    (mergeState .idf ⟨[2], [[2]]⟩ [⟨[3], [[3]]⟩, ⟨[1], [[1]]⟩]).2.length =
      ([⟨[3], [[3]]⟩, ⟨[1], [[1]]⟩] : List ModelStateLDA).length ∧
    (∀ L ∈ (mergeState .idf ⟨[2], [[2]]⟩ [⟨[3], [[3]]⟩, ⟨[1], [[1]]⟩]).2,
      L = (mergeState .idf ⟨[2], [[2]]⟩ [⟨[3], [[3]]⟩, ⟨[1], [[1]]⟩]).1) :=
  lda_C2 .idf 1 1 ⟨[2], [[2]]⟩ ⟨[3], [[3]]⟩ [⟨[1], [[1]]⟩]
    ⟨rfl, rfl, by decide⟩ ⟨rfl, rfl, by decide⟩
    (by intro L hL; simp at hL; subst hL; exact ⟨rfl, rfl, by decide⟩)

theorem optimInnerLoop_length (digamma : ℚ → ℚ) (docs : List DocumentLDA)
    (denom : ℚ) (ks : List ℕ) :
    ∀ alphas : List ℚ,
      (optimInnerLoop digamma docs denom ks alphas).length = alphas.length := by
  induction ks with
  | nil => intro alphas; rfl
  | cons k ks' ih =>
    intro alphas
    simp only [optimInnerLoop]
    rw [ih, List.length_set]

theorem optimInnerLoop_getD_of_not_mem (digamma : ℚ → ℚ)
    (docs : List DocumentLDA) (denom : ℚ) (ks : List ℕ) :
    ∀ (alphas : List ℚ) (k : ℕ), k ∉ ks →
      (optimInnerLoop digamma docs denom ks alphas).getD k 0 =
        alphas.getD k 0 := by
  induction ks with
  | nil => intro alphas k _; rfl
  | cons j ks' ih =>
    intro alphas k hk
    simp only [optimInnerLoop]
    rw [ih _ k (fun h => hk (by simp [h])),
      getD_set_ne _ j k _ (fun h => hk (by simp [h]))]

theorem optimInnerLoop_getD_of_mem (digamma : ℚ → ℚ)
    (docs : List DocumentLDA) (denom : ℚ) (ks : List ℕ) :
    ∀ (alphas : List ℚ) (k : ℕ), ks.Nodup → k ∈ ks → k < alphas.length →
      (optimInnerLoop digamma docs denom ks alphas).getD k 0 =
        max (calcDigammaSum digamma
            (fun i => (docs.getD i docDflt).numByTopic.getD k 0) docs.length
            (alphas.getD k 0) / denom * alphas.getD k 0)
          (1 / 100000) := by
  induction ks with
  | nil => intro alphas k _ hk; simp at hk
  | cons j ks' ih =>
    intro alphas k hnd hk hlt
    simp only [optimInnerLoop]
    rcases eq_or_ne k j with hkj | hkj
    · subst hkj
      have hnm : k ∉ ks' := (List.nodup_cons.mp hnd).1
      rw [optimInnerLoop_getD_of_not_mem digamma docs denom ks' _ k hnm]
      exact getD_set_self _ k _ hlt
    · have hk' : k ∈ ks' := by
        rcases List.mem_cons.mp hk with h | h
        · exact absurd h hkj
        · exact h
      rw [ih _ k hnd.of_cons hk' (by rw [List.length_set]; exact hlt),
        getD_set_ne _ j k _ (fun h => hkj h.symm)]

theorem optimIter_length (digamma : ℚ → ℚ) (tw : TermWeight)
    (docs : List DocumentLDA) (K : ℕ) (alphas : List ℚ) :
    (optimIter digamma tw docs K alphas).length = alphas.length :=
  optimInnerLoop_length ..

theorem optimIter_getD (digamma : ℚ → ℚ) (tw : TermWeight)
    (docs : List DocumentLDA) (K : ℕ) (alphas : List ℚ) (k : ℕ) (hk : k < K)
    (hlt : k < alphas.length) :
    (optimIter digamma tw docs K alphas).getD k 0 =
      max (calcDigammaSum digamma
          (fun i => (docs.getD i docDflt).numByTopic.getD k 0) docs.length
          (alphas.getD k 0) /
        calcDigammaSum digamma
          (fun i => getSumWordWeight tw (docs.getD i docDflt)) docs.length
          alphas.sum * alphas.getD k 0)
        (1 / 100000) :=
  optimInnerLoop_getD_of_mem digamma docs _ (List.range K) alphas k
    (List.nodup_range K) (List.mem_range.mpr hk) hlt

theorem optimIter_getD_low (digamma : ℚ → ℚ) (tw : TermWeight)
    (docs : List DocumentLDA) (K : ℕ) (alphas : List ℚ) (k : ℕ) (hk : k < K)
    (hlt : k < alphas.length) :
    1 / 100000 ≤ (optimIter digamma tw docs K alphas).getD k 0 := by
  rw [optimIter_getD digamma tw docs K alphas k hk hlt]
  exact le_max_right _ _

theorem iterate_optimIter_length (digamma : ℚ → ℚ) (tw : TermWeight)
    (docs : List DocumentLDA) (K : ℕ) (alphas : List ℚ) (n : ℕ) :
    ((optimIter digamma tw docs K)^[n] alphas).length = alphas.length := by
  induction n with
  | zero => rfl
  | succ n ih =>
    rw [Function.iterate_succ_apply', optimIter_length, ih]

/-- C6 (amended).  `optimizeParameters` performs exactly ten fixed-point
iterations; in each iteration `denom` is computed once from the
pre-iteration `alphas` and every `alphas[k]` is then replaced, in order, by
`max(1e-5, nom_k / denom * alphas[k])` with `nom_k` computed from the still
unreplaced `alphas[k]`; hence every entry is `≥ 1e-5` after every optimizer
invocation.  (Right after construction the entries equal the raw `alpha`,
which the constructor does not validate — see the counterexample.) -/
theorem lda_C6 (digamma : ℚ → ℚ) (tw : TermWeight) (docs : List DocumentLDA)
    (K : ℕ) (alphas : List ℚ) (hlen : alphas.length = K) :
    optimizeParameters digamma tw docs K alphas =
      (optimIter digamma tw docs K)^[10] alphas ∧
    (∀ as : List ℚ, as.length = K → ∀ k, k < K →
      (optimIter digamma tw docs K as).getD k 0 =
        max (1 / 100000)
          (as.getD k 0 *
            calcDigammaSum digamma
              (fun i => (docs.getD i docDflt).numByTopic.getD k 0)
              docs.length (as.getD k 0) /
            calcDigammaSum digamma
              (fun i => getSumWordWeight tw (docs.getD i docDflt))
              docs.length as.sum)) ∧
    (∀ k, k < K →
      1 / 100000 ≤ (optimizeParameters digamma tw docs K alphas).getD k 0) := by
  refine ⟨rfl, ?_, ?_⟩
  · intro as hasK k hk
    rw [optimIter_getD digamma tw docs K as k hk (by omega)]
    rw [max_comm]
    ring_nf
  · intro k hk
    show 1 / 100000 ≤ ((optimIter digamma tw docs K)^[10] alphas).getD k 0
    rw [show (10 : ℕ) = 9 + 1 by rfl, Function.iterate_succ_apply']
    exact optimIter_getD_low digamma tw docs K _ k hk
      (by rw [iterate_optimIter_length, hlen]; omega)

/-- C6 counterexample: the constructor accepts `alpha = 1e-6` and then
`alphas[0] = 1e-6 < 1e-5` holds right after construction, before any
optimizer run. -/
theorem lda_C6_counterexample :
    (LDAModelCtor .one 1 (1/1000000) (1/100)).alphas = [1/1000000] ∧
    ¬ (1 / 100000 : ℚ) ≤
      (LDAModelCtor .one 1 (1/1000000) (1/100)).alphas.getD 0 0 := by
  constructor
  · simp [LDAModelCtor]
  · simp [LDAModelCtor, List.getD]
    norm_num

theorem lda_C6_witness :
    optimizeParameters id .one [] 1 [1/10] =
      (optimIter id .one [] 1)^[10] [1/10] ∧
    (∀ as : List ℚ, as.length = 1 → ∀ k, k < 1 →
      (optimIter id .one [] 1 as).getD k 0 =
        max (1 / 100000)
          (as.getD k 0 *
            calcDigammaSum id
              (fun i => (([] : List DocumentLDA).getD i docDflt).numByTopic.getD k 0)
              ([] : List DocumentLDA).length (as.getD k 0) /
            calcDigammaSum id
              (fun i => getSumWordWeight .one (([] : List DocumentLDA).getD i docDflt))
              ([] : List DocumentLDA).length as.sum)) ∧
    (∀ k, k < 1 →
      1 / 100000 ≤ (optimizeParameters id .one [] 1 [1/10]).getD k 0) :=
  lda_C6 id .one [] 1 [1/10] rfl

theorem foldl_add_sum {α : Type} (g : α → ℚ) (l : List α) :
    ∀ a : ℚ, l.foldl (fun x y => x + g y) a = a + (l.map g).sum := by
  induction l with
  | nil => intro a; simp
  | cons x xs ih =>
    intro a
    simp only [List.foldl_cons, List.map_cons, List.sum_cons, ih]
    ring

theorem getLLDocs_eq (lgamma : ℚ → ℚ) (tw : TermWeight) (alphas : List ℚ)
    (K : ℕ) (docs : List DocumentLDA) :
    getLLDocs lgamma tw alphas K docs =
      (docs.map (fun doc =>
        lgamma alphas.sum - lgamma (getSumWordWeight tw doc + alphas.sum) +
          ((List.range K).map (fun k =>
            lgamma (doc.numByTopic.getD k 0 + alphas.getD k 0) -
              lgamma (alphas.getD k 0))).sum)).sum := by
  unfold getLLDocs
  rw [show (fun (ll : ℚ) (doc : DocumentLDA) =>
      (List.range K).foldl (fun ll k =>
        ll + (lgamma (doc.numByTopic.getD k 0 + alphas.getD k 0) -
          lgamma (alphas.getD k 0)))
        (ll - (lgamma (getSumWordWeight tw doc + alphas.sum) -
          lgamma alphas.sum))) =
    (fun (ll : ℚ) (doc : DocumentLDA) =>
      ll + (lgamma alphas.sum -
        lgamma (getSumWordWeight tw doc + alphas.sum) +
        ((List.range K).map (fun k =>
          lgamma (doc.numByTopic.getD k 0 + alphas.getD k 0) -
            lgamma (alphas.getD k 0))).sum)) from ?_]
  · rw [foldl_add_sum, zero_add]
  · funext ll doc
    rw [foldl_add_sum]
    ring

theorem getLLRest_eq (lgamma : ℚ → ℚ) (eta : ℚ) (K V : ℕ)
    (ld : ModelStateLDA) :
    getLLRest lgamma eta K V ld =
      (K : ℚ) * lgamma ((V : ℚ) * eta) +
        ((List.range K).map (fun k =>
          -(lgamma (ld.numByTopic.getD k 0 + (V : ℚ) * eta)) +
            ((List.range V).map (fun v =>
              if (ld.numByTopicWord.getD k []).getD v 0 = 0 then 0
              else lgamma ((ld.numByTopicWord.getD k []).getD v 0 + eta) -
                lgamma eta)).sum)).sum := by
  unfold getLLRest
  dsimp only
  rw [show (fun (ll : ℚ) (k : ℕ) =>
      (List.range V).foldl (fun ll v =>
        if (ld.numByTopicWord.getD k []).getD v 0 = 0 then ll
        else ll + (lgamma ((ld.numByTopicWord.getD k []).getD v 0 + eta) -
          lgamma eta))
        (ll - lgamma (ld.numByTopic.getD k 0 + (V : ℚ) * eta))) =
    (fun (ll : ℚ) (k : ℕ) =>
      ll + (-(lgamma (ld.numByTopic.getD k 0 + (V : ℚ) * eta)) +
        ((List.range V).map (fun v =>
          if (ld.numByTopicWord.getD k []).getD v 0 = 0 then 0
          else lgamma ((ld.numByTopicWord.getD k []).getD v 0 + eta) -
            lgamma eta)).sum)) from ?_]
  · rw [foldl_add_sum]
    ring
  · funext ll k
    rw [show (fun (ll : ℚ) (v : ℕ) =>
        if (ld.numByTopicWord.getD k []).getD v 0 = 0 then ll
        else ll + (lgamma ((ld.numByTopicWord.getD k []).getD v 0 + eta) -
          lgamma eta)) =
      (fun (ll : ℚ) (v : ℕ) =>
        ll + (if (ld.numByTopicWord.getD k []).getD v 0 = 0 then 0
          else lgamma ((ld.numByTopicWord.getD k []).getD v 0 + eta) -
            lgamma eta)) from ?_]
    · rw [foldl_add_sum]
      ring
    · funext ll v
      by_cases h : (ld.numByTopicWord.getD k []).getD v 0 = 0
      · rw [if_pos h, if_pos h, add_zero]
      · rw [if_neg h, if_neg h]

/-- C9.  `getLL` is the sum of the document part
`Σ_d [lgamma(Σα) − lgamma(swc_d + Σα) + Σ_k (lgamma(n_dk + α_k) − lgamma(α_k))]`
and the topic-word part
`K·lgamma(V·eta) + Σ_k [−lgamma(n_k + V·eta) + Σ_{v : n_kv ≠ 0} (lgamma(n_kv + eta) − lgamma(eta))]`,
zero-count vocab entries being skipped in the inner sum. -/
theorem lda_C9 (lgamma : ℚ → ℚ) (tw : TermWeight) (alphas : List ℚ)
    (eta : ℚ) (K V : ℕ) (docs : List DocumentLDA) (gs : ModelStateLDA) :
    getLL lgamma tw alphas eta K V docs gs =
      (docs.map (fun doc =>
        lgamma alphas.sum - lgamma (getSumWordWeight tw doc + alphas.sum) +
          ((List.range K).map (fun k =>
            lgamma (doc.numByTopic.getD k 0 + alphas.getD k 0) -
              lgamma (alphas.getD k 0))).sum)).sum +
      ((K : ℚ) * lgamma ((V : ℚ) * eta) +
        ((List.range K).map (fun k =>
          -(lgamma (gs.numByTopic.getD k 0 + (V : ℚ) * eta)) +
            ((List.range V).map (fun v =>
              if (gs.numByTopicWord.getD k []).getD v 0 = 0 then 0
              else lgamma ((gs.numByTopicWord.getD k []).getD v 0 + eta) -
                lgamma eta)).sum)).sum) := by
  unfold getLL
  rw [getLLDocs_eq, getLLRest_eq]

theorem cumSum_length (l : List ℚ) : ∀ acc, (cumSum acc l).length = l.length := by
  induction l with
  | nil => intro acc; rfl
  | cons x xs ih => intro acc; simp [cumSum, ih]

theorem cumSum_getD (l : List ℚ) :
    ∀ (acc : ℚ) (k : ℕ), k < l.length →
      (cumSum acc l).getD k 0 = acc + (l.take (k + 1)).sum := by
  induction l with
  | nil => intro acc k h; simp at h
  | cons x xs ih =>
    intro acc k hk
    cases k with
    | zero => simp [cumSum]
    | succ k =>
      simp only [cumSum, List.getD_cons_succ]
      rw [ih (acc + x) k (by simpa using hk)]
      simp only [List.take_succ_cons, List.sum_cons]
      ring

theorem zLikelihoodRaw_length (cfg : SamplerCfg) (ld : ModelStateLDA)
    (doc : DocumentLDA) (vid : ℕ) :
    (zLikelihoodRaw cfg ld doc vid).length = cfg.K := by
  simp [zLikelihoodRaw]

theorem sampleFromDiscreteAcc_spec (q : List ℚ) (u : ℚ) (hq : 0 < q.length)
    (hu : u ≤ q.getD (q.length - 1) 0) :
    sampleFromDiscreteAcc q u < q.length ∧
    u ≤ q.getD (sampleFromDiscreteAcc q u) 0 ∧
    ∀ j, j < sampleFromDiscreteAcc q u → q.getD j 0 < u := by
  have hlen : q.length - 1 < q.length := by omega
  have hmem : q.getD (q.length - 1) 0 ∈ q := by
    rw [List.getD_eq_getElem q 0 hlen]
    exact List.getElem_mem hlen
  have hlt : q.findIdx (fun x => decide (u ≤ x)) < q.length :=
    List.findIdx_lt_length_of_exists ⟨_, hmem, by simpa using hu⟩
  have h2 : (fun x => decide (u ≤ x))
      (q[q.findIdx (fun x => decide (u ≤ x))]) = true :=
    @List.findIdx_getElem _ (fun x => decide (u ≤ x)) q hlt
  refine ⟨hlt, ?_, ?_⟩
  · rw [show sampleFromDiscreteAcc q u =
        q.findIdx (fun x => decide (u ≤ x)) from rfl,
      List.getD_eq_getElem q 0 hlt]
    simpa using h2
  · intro j hj
    have hj' : j < q.findIdx (fun x => decide (u ≤ x)) := hj
    have hjlen : j < q.length := lt_trans hj' hlt
    have h3 : decide (u ≤ q[j]) = false := List.not_of_lt_findIdx hj'
    rw [List.getD_eq_getElem q 0 hjlen]
    exact not_le.mp (by simpa using h3)

/-- C5.  At an in-vocab position the sampler first decrements the current
assignment, then builds the proposal
`p(k) = (d.numByTopic[k] + alphas[k]) * (S.numByTopicWord[k][v] + eta) / (S.numByTopic[k] + V*eta)`
from the decremented counts, prefix-sums it in place, and the uniform draw
`u < p[K-1]` selects the smallest `k` with `p[k] ≥ u`, which is stored in
`Zs[i]` before the symmetric increment. -/
theorem lda_C5 (cfg : SamplerCfg) (i v : ℕ) (s : SampleState)
    (dec : ModelStateLDA × DocumentLDA) (p q : List ℚ) (z : ℕ)
    (hv : v < cfg.V) (hK : 0 < cfg.K) (hi : i < s.doc.Zs.length)
    (hdec : dec = addWordTo cfg.tw (-1) s.ld s.doc i v (s.doc.Zs.getD i 0))
    (hp : p = zLikelihoodRaw cfg dec.1 dec.2 v)
    (hq : q = cumSum 0 p)
    (hz : z = sampleFromDiscreteAcc q (s.us.headD 0))
    (hu : s.us.headD 0 < q.getD (cfg.K - 1) 0) :
    (∀ r : List ℕ, sampleWords cfg (v :: r) i s =
      sampleWords cfg r (i + 1) (sampleOne cfg i v s)) ∧
    (∀ k, k < cfg.K → p.getD k 0 =
      (dec.2.numByTopic.getD k 0 + cfg.alphas.getD k 0) *
        ((dec.1.numByTopicWord.getD k []).getD v 0 + cfg.eta) /
        (dec.1.numByTopic.getD k 0 + (cfg.V : ℚ) * cfg.eta)) ∧
    (∀ k, k < cfg.K → q.getD k 0 = (p.take (k + 1)).sum) ∧
    (z < cfg.K ∧ s.us.headD 0 ≤ q.getD z 0 ∧
      ∀ j, j < z → q.getD j 0 < s.us.headD 0) ∧
    (sampleOne cfg i v s).doc.Zs = dec.2.Zs.set i z ∧
    (sampleOne cfg i v s).doc.Zs.getD i 0 = z ∧
    (sampleOne cfg i v s).ld =
      (addWordTo cfg.tw 1 dec.1
        ⟨dec.2.words, dec.2.Zs.set i z, dec.2.wordWeights, dec.2.numByTopic⟩
        i v z).1 ∧
    (sampleOne cfg i v s).us = s.us.tail := by
  subst hdec
  subst hp
  subst hq
  subst hz
  have hlp : (zLikelihoodRaw cfg
      (addWordTo cfg.tw (-1) s.ld s.doc i v (s.doc.Zs.getD i 0)).1
      (addWordTo cfg.tw (-1) s.ld s.doc i v (s.doc.Zs.getD i 0)).2 v).length =
      cfg.K := zLikelihoodRaw_length ..
  have hlq : (cumSum 0 (zLikelihoodRaw cfg
      (addWordTo cfg.tw (-1) s.ld s.doc i v (s.doc.Zs.getD i 0)).1
      (addWordTo cfg.tw (-1) s.ld s.doc i v (s.doc.Zs.getD i 0)).2 v)).length =
      cfg.K := by rw [cumSum_length, hlp]
  refine ⟨?_, ?_, ?_, ?_, rfl, ?_, rfl, rfl⟩
  · intro r
    simp only [sampleWords]
    rw [if_pos hv]
  · intro k hk
    simp only [zLikelihoodRaw]
    exact getD_range_map _ _ _ hk
  · intro k hk
    rw [cumSum_getD _ 0 k (by rw [hlp]; exact hk), zero_add]
  · obtain ⟨h1, h2, h3⟩ := sampleFromDiscreteAcc_spec _ (s.us.headD 0)
      (by rw [hlq]; exact hK) (by rw [hlq]; exact le_of_lt hu)
    rw [hlq] at h1
    exact ⟨h1, h2, h3⟩
  · exact getD_set_self
      ((addWordTo cfg.tw (-1) s.ld s.doc i v (s.doc.Zs.getD i 0)).2.Zs) i _ hi

theorem lda_C5_witness :
    (∀ r : List ℕ, sampleWords exCfg (0 :: r) 0 exS =
      sampleWords exCfg r (0 + 1) (sampleOne exCfg 0 0 exS)) ∧
    (∀ k, k < exCfg.K → exP.getD k 0 =
      (exDec.2.numByTopic.getD k 0 + exCfg.alphas.getD k 0) *
        ((exDec.1.numByTopicWord.getD k []).getD 0 0 + exCfg.eta) /
        (exDec.1.numByTopic.getD k 0 + (exCfg.V : ℚ) * exCfg.eta)) ∧
    (∀ k, k < exCfg.K → exQ.getD k 0 = (exP.take (k + 1)).sum) ∧
    (exZ < exCfg.K ∧ exS.us.headD 0 ≤ exQ.getD exZ 0 ∧
      ∀ j, j < exZ → exQ.getD j 0 < exS.us.headD 0) ∧
    (sampleOne exCfg 0 0 exS).doc.Zs = exDec.2.Zs.set 0 exZ ∧
    (sampleOne exCfg 0 0 exS).doc.Zs.getD 0 0 = exZ ∧
    (sampleOne exCfg 0 0 exS).ld =
      (addWordTo exCfg.tw 1 exDec.1
        ⟨exDec.2.words, exDec.2.Zs.set 0 exZ, exDec.2.wordWeights,
          exDec.2.numByTopic⟩ 0 0 exZ).1 ∧
    (sampleOne exCfg 0 0 exS).us = exS.us.tail :=
  lda_C5 exCfg 0 0 exS exDec exP exQ exZ
    (by decide) (by decide) (by decide) rfl rfl rfl rfl
    (by norm_num [exS, exQ, exP, exDec, exCfg, exDoc, exLd, cumSum,
      zLikelihoodRaw, addWordTo, listAddAt, matAddAt, weightAt, List.getD])

theorem initOne_one_eq (wf : ℕ → ℚ) (i v : ℕ) (s : InitState) :
    initOne .one wf i v s =
      ⟨⟨s.doc.words, s.doc.Zs.set i (s.zs.headD 0), s.doc.wordWeights,
        listAddAt s.doc.numByTopic (s.zs.headD 0) (1 * 1)⟩,
       ⟨listAddAt s.ld.numByTopic (s.zs.headD 0) (1 * 1),
        matAddAt s.ld.numByTopicWord (s.zs.headD 0) v (1 * 1)⟩,
       s.zs.tail⟩ := by
  simp [initOne, addWordTo, weightAt]

theorem initLoop_spec_one (V : ℕ) (wf : ℕ → ℚ) :
    ∀ (ws : List ℕ) (i : ℕ) (s : InitState),
      (initLoop .one V wf ws i s).doc.words = s.doc.words ∧
      (initLoop .one V wf ws i s).doc.wordWeights = s.doc.wordWeights ∧
      (initLoop .one V wf ws i s).zs =
        s.zs.drop (ws.countP (fun v => decide (v < V))) ∧
      (∀ j, (∀ m, m < ws.length → i + m = j → V ≤ ws.getD m 0) →
        (initLoop .one V wf ws i s).doc.Zs.getD j 0 = s.doc.Zs.getD j 0) ∧
      (initLoop .one V wf ws i s).ld.numByTopic =
        (inVocabPairs V ws s.zs).foldl
          (fun acc p => listAddAt acc p.2 (1 * wEffect .one wf p.1))
          s.ld.numByTopic ∧
      (initLoop .one V wf ws i s).ld.numByTopicWord =
        (inVocabPairs V ws s.zs).foldl
          (fun acc p => matAddAt acc p.2 p.1 (1 * wEffect .one wf p.1))
          s.ld.numByTopicWord ∧
      (initLoop .one V wf ws i s).doc.numByTopic =
        (inVocabPairs V ws s.zs).foldl
          (fun acc p => listAddAt acc p.2 (1 * wEffect .one wf p.1))
          s.doc.numByTopic
  | [], i, s => by
    refine ⟨rfl, rfl, by simp [initLoop, inVocabPairs], fun j _ => rfl,
      ?_, ?_, ?_⟩ <;> simp [initLoop, inVocabPairs]
  | v :: rest, i, s => by
    by_cases hv : v < V
    · have hpairs : inVocabPairs V (v :: rest) s.zs =
          (v, s.zs.headD 0) :: inVocabPairs V rest s.zs.tail := by
        simp [inVocabPairs, hv]
      have hloop : initLoop .one V wf (v :: rest) i s =
          initLoop .one V wf rest (i + 1) (initOne .one wf i v s) := by
        simp only [initLoop]
        rw [if_pos hv]
      have e1 : (initOne .one wf i v s).doc.words = s.doc.words := by
        rw [initOne_one_eq]
      have e2 : (initOne .one wf i v s).doc.wordWeights =
          s.doc.wordWeights := by
        rw [initOne_one_eq]
      have e3 : (initOne .one wf i v s).zs = s.zs.tail := by
        rw [initOne_one_eq]
      have e4 : (initOne .one wf i v s).doc.Zs =
          s.doc.Zs.set i (s.zs.headD 0) := by
        rw [initOne_one_eq]
      have e5 : (initOne .one wf i v s).ld.numByTopic =
          listAddAt s.ld.numByTopic (s.zs.headD 0) (1 * 1) := by
        rw [initOne_one_eq]
      have e6 : (initOne .one wf i v s).ld.numByTopicWord =
          matAddAt s.ld.numByTopicWord (s.zs.headD 0) v (1 * 1) := by
        rw [initOne_one_eq]
      have e7 : (initOne .one wf i v s).doc.numByTopic =
          listAddAt s.doc.numByTopic (s.zs.headD 0) (1 * 1) := by
        rw [initOne_one_eq]
      obtain ⟨ihw, ihww, ihzs, ihZ, ihn, ihm, ihd⟩ :=
        initLoop_spec_one V wf rest (i + 1) (initOne .one wf i v s)
      refine ⟨?_, ?_, ?_, ?_, ?_, ?_, ?_⟩
      · rw [hloop, ihw, e1]
      · rw [hloop, ihww, e2]
      · rw [hloop, ihzs, e3,
          List.countP_cons_of_pos _ _ (by simpa using hv),
          ← List.drop_one, List.drop_drop, Nat.add_comm]
      · intro j hj
        have hij : i ≠ j := by
          intro he
          have hx := hj 0 (by simp) (by omega)
          rw [List.getD_cons_zero] at hx
          omega
        rw [hloop, ihZ j ?_, e4]
        · exact getD_set_ne _ i j _ hij
        · intro m hm hmj
          have hx := hj (m + 1) (by simpa using hm) (by omega)
          rwa [List.getD_cons_succ] at hx
      · rw [hloop, ihn, e5, e3, hpairs, List.foldl_cons]
        simp [wEffect]
      · rw [hloop, ihm, e6, e3, hpairs, List.foldl_cons]
        simp [wEffect]
      · rw [hloop, ihd, e7, e3, hpairs, List.foldl_cons]
        simp [wEffect]
    · have hpairs : inVocabPairs V (v :: rest) s.zs =
          inVocabPairs V rest s.zs := by
        simp [inVocabPairs, hv]
      have hloop : initLoop .one V wf (v :: rest) i s =
          initLoop .one V wf rest (i + 1) s := by
        simp only [initLoop]
        rw [if_neg hv]
      obtain ⟨ihw, ihww, ihzs, ihZ, ihn, ihm, ihd⟩ :=
        initLoop_spec_one V wf rest (i + 1) s
      refine ⟨?_, ?_, ?_, ?_, ?_, ?_, ?_⟩
      · rw [hloop, ihw]
      · rw [hloop, ihww]
      · rw [hloop, ihzs, List.countP_cons_of_neg _ _ (by simpa using hv)]
      · intro j hj
        rw [hloop, ihZ j ?_]
        intro m hm hmj
        have hx := hj (m + 1) (by simpa using hm) (by omega)
        rwa [List.getD_cons_succ] at hx
      · rw [hloop, ihn, hpairs]
      · rw [hloop, ihm, hpairs]
      · rw [hloop, ihd, hpairs]

theorem initOne_weighted_eq (tw : TermWeight) (htw : tw ≠ .one)
    (wf : ℕ → ℚ) (i v : ℕ) (s : InitState) :
    initOne tw wf i v s =
      ⟨⟨s.doc.words, s.doc.Zs.set i (s.zs.headD 0),
        s.doc.wordWeights.set i (wf v),
        listAddAt s.doc.numByTopic (s.zs.headD 0)
          (1 * (s.doc.wordWeights.set i (wf v)).getD i 0)⟩,
       ⟨listAddAt s.ld.numByTopic (s.zs.headD 0)
          (1 * (s.doc.wordWeights.set i (wf v)).getD i 0),
        matAddAt s.ld.numByTopicWord (s.zs.headD 0) v
          (1 * (s.doc.wordWeights.set i (wf v)).getD i 0)⟩,
       s.zs.tail⟩ := by
  simp [initOne, addWordTo, weightAt, htw]

theorem initLoop_spec_weighted (tw : TermWeight) (htw : tw ≠ .one) (V : ℕ)
    (wf : ℕ → ℚ) :
    ∀ (ws : List ℕ) (i : ℕ) (pre : List ℚ) (s : InitState),
      i = pre.length →
      s.doc.wordWeights = pre ++ List.replicate ws.length 1 →
      (initLoop tw V wf ws i s).doc.words = s.doc.words ∧
      (initLoop tw V wf ws i s).doc.wordWeights =
        pre ++ ws.map (fun v => if v < V then wf v else 1) ∧
      (initLoop tw V wf ws i s).zs =
        s.zs.drop (ws.countP (fun v => decide (v < V))) ∧
      (∀ j, (∀ m, m < ws.length → i + m = j → V ≤ ws.getD m 0) →
        (initLoop tw V wf ws i s).doc.Zs.getD j 0 = s.doc.Zs.getD j 0) ∧
      (initLoop tw V wf ws i s).ld.numByTopic =
        (inVocabPairs V ws s.zs).foldl
          (fun acc p => listAddAt acc p.2 (1 * wEffect tw wf p.1))
          s.ld.numByTopic ∧
      (initLoop tw V wf ws i s).ld.numByTopicWord =
        (inVocabPairs V ws s.zs).foldl
          (fun acc p => matAddAt acc p.2 p.1 (1 * wEffect tw wf p.1))
          s.ld.numByTopicWord ∧
      (initLoop tw V wf ws i s).doc.numByTopic =
        (inVocabPairs V ws s.zs).foldl
          (fun acc p => listAddAt acc p.2 (1 * wEffect tw wf p.1))
          s.doc.numByTopic
  | [], i, pre, s, hi, hww => by
    refine ⟨rfl, by simpa using hww, by simp [initLoop, inVocabPairs],
      fun j _ => rfl, ?_, ?_, ?_⟩ <;> simp [initLoop, inVocabPairs]
  | v :: rest, i, pre, s, hi, hww => by
    have hww' : s.doc.wordWeights = pre ++ 1 :: List.replicate rest.length 1 := by
      rw [hww, List.length_cons, List.replicate_succ]
    have hlt : i < s.doc.wordWeights.length := by
      rw [hww', List.length_append, List.length_cons, hi]
      omega
    by_cases hv : v < V
    · have hpairs : inVocabPairs V (v :: rest) s.zs =
          (v, s.zs.headD 0) :: inVocabPairs V rest s.zs.tail := by
        simp [inVocabPairs, hv]
      have hloop : initLoop tw V wf (v :: rest) i s =
          initLoop tw V wf rest (i + 1) (initOne tw wf i v s) := by
        simp only [initLoop]
        rw [if_pos hv]
      have hsetww : s.doc.wordWeights.set i (wf v) =
          pre ++ wf v :: List.replicate rest.length 1 := by
        rw [hww', hi, List.set_append_right _ _ (le_refl _)]
        simp
      have hwval : (s.doc.wordWeights.set i (wf v)).getD i 0 = wf v :=
        getD_set_self _ i _ hlt
      have e1 : (initOne tw wf i v s).doc.words = s.doc.words := by
        rw [initOne_weighted_eq tw htw]
      have e2 : (initOne tw wf i v s).doc.wordWeights =
          (pre ++ [wf v]) ++ List.replicate rest.length 1 := by
        rw [initOne_weighted_eq tw htw]
        dsimp only
        rw [hsetww, List.append_cons]
      have e3 : (initOne tw wf i v s).zs = s.zs.tail := by
        rw [initOne_weighted_eq tw htw]
      have e4 : (initOne tw wf i v s).doc.Zs =
          s.doc.Zs.set i (s.zs.headD 0) := by
        rw [initOne_weighted_eq tw htw]
      have e5 : (initOne tw wf i v s).ld.numByTopic =
          listAddAt s.ld.numByTopic (s.zs.headD 0) (1 * wf v) := by
        rw [initOne_weighted_eq tw htw]
        dsimp only
        rw [hwval]
      have e6 : (initOne tw wf i v s).ld.numByTopicWord =
          matAddAt s.ld.numByTopicWord (s.zs.headD 0) v (1 * wf v) := by
        rw [initOne_weighted_eq tw htw]
        dsimp only
        rw [hwval]
      have e7 : (initOne tw wf i v s).doc.numByTopic =
          listAddAt s.doc.numByTopic (s.zs.headD 0) (1 * wf v) := by
        rw [initOne_weighted_eq tw htw]
        dsimp only
        rw [hwval]
      obtain ⟨ihw, ihww, ihzs, ihZ, ihn, ihm, ihd⟩ :=
        initLoop_spec_weighted tw htw V wf rest (i + 1) (pre ++ [wf v])
          (initOne tw wf i v s) (by rw [hi]; simp) e2
      refine ⟨?_, ?_, ?_, ?_, ?_, ?_, ?_⟩
      · rw [hloop, ihw, e1]
      · rw [hloop, ihww, List.map_cons, if_pos hv]
        simp
      · rw [hloop, ihzs, e3,
          List.countP_cons_of_pos _ _ (by simpa using hv),
          ← List.drop_one, List.drop_drop, Nat.add_comm]
      · intro j hj
        have hij : i ≠ j := by
          intro he
          have hx := hj 0 (by simp) (by omega)
          rw [List.getD_cons_zero] at hx
          omega
        rw [hloop, ihZ j ?_, e4]
        · exact getD_set_ne _ i j _ hij
        · intro m hm hmj
          have hx := hj (m + 1) (by simpa using hm) (by omega)
          rwa [List.getD_cons_succ] at hx
      · rw [hloop, ihn, e5, e3, hpairs, List.foldl_cons]
        simp [wEffect, htw]
      · rw [hloop, ihm, e6, e3, hpairs, List.foldl_cons]
        simp [wEffect, htw]
      · rw [hloop, ihd, e7, e3, hpairs, List.foldl_cons]
        simp [wEffect, htw]
    · have hpairs : inVocabPairs V (v :: rest) s.zs =
          inVocabPairs V rest s.zs := by
        simp [inVocabPairs, hv]
      have hloop : initLoop tw V wf (v :: rest) i s =
          initLoop tw V wf rest (i + 1) s := by
        simp only [initLoop]
        rw [if_neg hv]
      obtain ⟨ihw, ihww, ihzs, ihZ, ihn, ihm, ihd⟩ :=
        initLoop_spec_weighted tw htw V wf rest (i + 1) (pre ++ [1]) s
          (by rw [hi]; simp) (by rw [hww', List.append_cons])
      refine ⟨?_, ?_, ?_, ?_, ?_, ?_, ?_⟩
      · rw [hloop, ihw]
      · rw [hloop, ihww, List.map_cons, if_neg hv]
        simp
      · rw [hloop, ihzs, List.countP_cons_of_neg _ _ (by simpa using hv)]
      · intro j hj
        rw [hloop, ihZ j ?_]
        intro m hm hmj
        have hx := hj (m + 1) (by simpa using hm) (by omega)
        rwa [List.getD_cons_succ] at hx
      · rw [hloop, ihn, hpairs]
      · rw [hloop, ihm, hpairs]
      · rw [hloop, ihd, hpairs]

theorem sampleWords_skip (cfg : SamplerCfg) (v : ℕ) (rest : List ℕ) (i : ℕ)
    (s : SampleState) (hv : ¬ v < cfg.V) :
    sampleWords cfg (v :: rest) i s = sampleWords cfg rest (i + 1) s := by
  simp only [sampleWords]
  rw [if_neg hv]

theorem sampleOne_Zs (cfg : SamplerCfg) (i v : ℕ) (s : SampleState) :
    (sampleOne cfg i v s).doc.Zs =
      s.doc.Zs.set i (sampleFromDiscreteAcc
        (getZLikelihoods cfg
          (addWordTo cfg.tw (-1) s.ld s.doc i v (s.doc.Zs.getD i 0)).1
          (addWordTo cfg.tw (-1) s.ld s.doc i v (s.doc.Zs.getD i 0)).2 v)
        (s.us.headD 0)) := rfl

theorem sampleWords_Zs_getD (cfg : SamplerCfg) :
    ∀ (ws : List ℕ) (i : ℕ) (s : SampleState) (j : ℕ),
      (∀ m, m < ws.length → i + m = j → cfg.V ≤ ws.getD m 0) →
      (sampleWords cfg ws i s).doc.Zs.getD j 0 = s.doc.Zs.getD j 0
  | [], _, _, _, _ => rfl
  | v :: rest, i, s, j, hj => by
    by_cases hv : v < cfg.V
    · have hloop : sampleWords cfg (v :: rest) i s =
          sampleWords cfg rest (i + 1) (sampleOne cfg i v s) := by
        simp only [sampleWords]
        rw [if_pos hv]
      have hij : i ≠ j := by
        intro he
        have hx := hj 0 (by simp) (by omega)
        rw [List.getD_cons_zero] at hx
        omega
      rw [hloop, sampleWords_Zs_getD cfg rest (i + 1) _ j ?_, sampleOne_Zs,
        getD_set_ne _ i j _ hij]
      intro m hm hmj
      have hx := hj (m + 1) (by simpa using hm) (by omega)
      rwa [List.getD_cons_succ] at hx
    · rw [sampleWords_skip cfg v rest i s hv,
        sampleWords_Zs_getD cfg rest (i + 1) s j ?_]
      intro m hm hmj
      have hx := hj (m + 1) (by simpa using hm) (by omega)
      rwa [List.getD_cons_succ] at hx

theorem foldl_natIncAt_getD (c : ℕ → Prop) [DecidablePred c] (t : ℕ → ℕ) :
    ∀ (l : List ℕ) (cnt : List ℕ),
      (l.foldl (fun cnt i => if c i then natIncAt cnt (t i) else cnt)
        cnt).length = cnt.length ∧
      ∀ k, k < cnt.length →
        (l.foldl (fun cnt i => if c i then natIncAt cnt (t i) else cnt)
          cnt).getD k 0 =
          cnt.getD k 0 + l.countP (fun i => decide (c i) && (t i == k))
  | [], cnt => ⟨rfl, fun k _ => by simp⟩
  | i :: rest, cnt => by
    have hstep : ∀ cnt' : List ℕ,
        ((i :: rest).foldl (fun cnt i => if c i then natIncAt cnt (t i)
          else cnt) cnt) = rest.foldl (fun cnt i => if c i then
            natIncAt cnt (t i) else cnt)
          (if c i then natIncAt cnt (t i) else cnt) := fun _ => rfl
    obtain ⟨ihlen, ihgetD⟩ := foldl_natIncAt_getD c t rest
      (if c i then natIncAt cnt (t i) else cnt)
    have hlenstep : (if c i then natIncAt cnt (t i) else cnt).length =
        cnt.length := by
      by_cases hc : c i
      · rw [if_pos hc]
        exact List.length_set ..
      · rw [if_neg hc]
    constructor
    · rw [hstep cnt, ihlen, hlenstep]
    · intro k hk
      rw [hstep cnt, ihgetD k (by rw [hlenstep]; exact hk),
        List.countP_cons]
      by_cases hc : c i
      · by_cases htk : t i = k
        · have h1 : (if c i then natIncAt cnt (t i) else cnt).getD k 0 =
              cnt.getD k 0 + 1 := by
            rw [if_pos hc, htk, natIncAt, getD_set_self _ k _ hk]
          rw [h1, if_pos (by simp [hc, htk])]
          omega
        · have h1 : (if c i then natIncAt cnt (t i) else cnt).getD k 0 =
              cnt.getD k 0 := by
            rw [if_pos hc, natIncAt, getD_set_ne _ _ _ _ htk]
          rw [h1, if_neg (by simp [htk])]
          omega
      · have h1 : (if c i then natIncAt cnt (t i) else cnt).getD k 0 =
            cnt.getD k 0 := by rw [if_neg hc]
        rw [h1, if_neg (by simp [hc])]
        omega

theorem getTopicsCount_aux (K V : ℕ) :
    ∀ (docs : List DocumentLDA) (cnt : List ℕ),
      (docs.foldl (fun cnt doc =>
        (List.range doc.Zs.length).foldl (fun cnt i =>
          if doc.words.getD i 0 < V then natIncAt cnt (doc.Zs.getD i 0)
          else cnt) cnt) cnt).length = cnt.length ∧
      ∀ k, k < cnt.length →
        (docs.foldl (fun cnt doc =>
          (List.range doc.Zs.length).foldl (fun cnt i =>
            if doc.words.getD i 0 < V then natIncAt cnt (doc.Zs.getD i 0)
            else cnt) cnt) cnt).getD k 0 =
          cnt.getD k 0 +
            (docs.map (fun d => inVocabCountByTopic V k d)).sum
  | [], cnt => ⟨rfl, fun k _ => by simp⟩
  | d :: rest, cnt => by
    obtain ⟨dlen, dgetD⟩ := foldl_natIncAt_getD
      (fun i => d.words.getD i 0 < V) (fun i => d.Zs.getD i 0)
      (List.range d.Zs.length) cnt
    obtain ⟨ihlen, ihgetD⟩ := getTopicsCount_aux K V rest
      ((List.range d.Zs.length).foldl (fun cnt i =>
        if d.words.getD i 0 < V then natIncAt cnt (d.Zs.getD i 0)
        else cnt) cnt)
    constructor
    · rw [List.foldl_cons, ihlen, dlen]
    · intro k hk
      rw [List.foldl_cons, ihgetD k (by rw [dlen]; exact hk),
        dgetD k hk, List.map_cons, List.sum_cons]
      have : inVocabCountByTopic V k d =
          (List.range d.Zs.length).countP
            (fun i => decide (d.words.getD i 0 < V) && (d.Zs.getD i 0 == k)) :=
        rfl
      rw [this]
      omega

theorem getTopicsCount_getD (K V : ℕ) (docs : List DocumentLDA) (k : ℕ)
    (hk : k < K) :
    (getTopicsCount K V docs).getD k 0 =
      (docs.map (fun d => inVocabCountByTopic V k d)).sum := by
  obtain ⟨_, hgetD⟩ := getTopicsCount_aux K V docs (List.replicate K 0)
  rw [getTopicsCount, hgetD k (by simpa using hk),
    getD_replicate _ _ _ hk]
  omega

/-- C7.  Out-of-vocab positions (`id ≥ V`): initialization never draws or
stores a topic for them (their `Zs` entry keeps the allocation value 0 and
the draw stream is consumed once per in-vocab token only), every count
structure receives exactly the in-vocab contributions, per-token resampling
skips them entirely (and leaves their `Zs` entries untouched), and
`count_by_topic` counts in-vocab positions only. -/
theorem lda_C7 (logF : ℚ → ℚ) (tw : TermWeight) (K V : ℕ)
    (vocabWeights : List ℚ) (doc : DocumentLDA) (ld : ModelStateLDA)
    (zs : List ℕ) (cfg : SamplerCfg) (s : SampleState) :
    (∀ j, j < doc.words.length → V ≤ doc.words.getD j 0 →
      (initDocState logF tw K V vocabWeights doc ld zs).doc.Zs.getD j 0 =
        0) ∧
    (initDocState logF tw K V vocabWeights doc ld zs).zs =
      zs.drop (doc.words.countP (fun v => decide (v < V))) ∧
    (initDocState logF tw K V vocabWeights doc ld zs).ld.numByTopic =
      (inVocabPairs V doc.words zs).foldl
        (fun acc p => listAddAt acc p.2
          (1 * wEffect tw (initWeight logF tw vocabWeights doc.words) p.1))
        ld.numByTopic ∧
    (initDocState logF tw K V vocabWeights doc ld zs).ld.numByTopicWord =
      (inVocabPairs V doc.words zs).foldl
        (fun acc p => matAddAt acc p.2 p.1
          (1 * wEffect tw (initWeight logF tw vocabWeights doc.words) p.1))
        ld.numByTopicWord ∧
    (initDocState logF tw K V vocabWeights doc ld zs).doc.numByTopic =
      (inVocabPairs V doc.words zs).foldl
        (fun acc p => listAddAt acc p.2
          (1 * wEffect tw (initWeight logF tw vocabWeights doc.words) p.1))
        (List.replicate K 0) ∧
    (∀ v rest i s', ¬ v < cfg.V →
      sampleWords cfg (v :: rest) i s' = sampleWords cfg rest (i + 1) s') ∧
    (∀ j, j < s.doc.words.length → cfg.V ≤ s.doc.words.getD j 0 →
      (sampleDocument cfg s).doc.Zs.getD j 0 = s.doc.Zs.getD j 0) ∧
    (∀ docs : List DocumentLDA, ∀ k, k < K →
      (getTopicsCount K V docs).getD k 0 =
        (docs.map (fun d => inVocabCountByTopic V k d)).sum) := by
  have hinit : initDocState logF tw K V vocabWeights doc ld zs =
      initLoop tw V (initWeight logF tw vocabWeights doc.words) doc.words 0
        ⟨prepareDoc tw K doc, ld, zs⟩ := rfl
  have H : (∀ j, (∀ m, m < doc.words.length → 0 + m = j →
        V ≤ doc.words.getD m 0) →
      (initLoop tw V (initWeight logF tw vocabWeights doc.words) doc.words 0
        ⟨prepareDoc tw K doc, ld, zs⟩).doc.Zs.getD j 0 =
        (⟨prepareDoc tw K doc, ld, zs⟩ : InitState).doc.Zs.getD j 0) ∧
      (initLoop tw V (initWeight logF tw vocabWeights doc.words) doc.words 0
        ⟨prepareDoc tw K doc, ld, zs⟩).zs =
        (⟨prepareDoc tw K doc, ld, zs⟩ : InitState).zs.drop
          (doc.words.countP (fun v => decide (v < V))) ∧
      (initLoop tw V (initWeight logF tw vocabWeights doc.words) doc.words 0
        ⟨prepareDoc tw K doc, ld, zs⟩).ld.numByTopic =
        (inVocabPairs V doc.words
          (⟨prepareDoc tw K doc, ld, zs⟩ : InitState).zs).foldl
          (fun acc p => listAddAt acc p.2
            (1 * wEffect tw (initWeight logF tw vocabWeights doc.words) p.1))
          (⟨prepareDoc tw K doc, ld, zs⟩ : InitState).ld.numByTopic ∧
      (initLoop tw V (initWeight logF tw vocabWeights doc.words) doc.words 0
        ⟨prepareDoc tw K doc, ld, zs⟩).ld.numByTopicWord =
        (inVocabPairs V doc.words
          (⟨prepareDoc tw K doc, ld, zs⟩ : InitState).zs).foldl
          (fun acc p => matAddAt acc p.2 p.1
            (1 * wEffect tw (initWeight logF tw vocabWeights doc.words) p.1))
          (⟨prepareDoc tw K doc, ld, zs⟩ : InitState).ld.numByTopicWord ∧
      (initLoop tw V (initWeight logF tw vocabWeights doc.words) doc.words 0
        ⟨prepareDoc tw K doc, ld, zs⟩).doc.numByTopic =
        (inVocabPairs V doc.words
          (⟨prepareDoc tw K doc, ld, zs⟩ : InitState).zs).foldl
          (fun acc p => listAddAt acc p.2
            (1 * wEffect tw (initWeight logF tw vocabWeights doc.words) p.1))
          (⟨prepareDoc tw K doc, ld, zs⟩ : InitState).doc.numByTopic := by
    by_cases htw : tw = .one
    · subst htw
      obtain ⟨_, _, h3, h4, h5, h6, h7⟩ := initLoop_spec_one V
        (initWeight logF .one vocabWeights doc.words) doc.words 0
        ⟨prepareDoc .one K doc, ld, zs⟩
      exact ⟨h4, h3, h5, h6, h7⟩
    · obtain ⟨_, _, h3, h4, h5, h6, h7⟩ := initLoop_spec_weighted tw htw V
        (initWeight logF tw vocabWeights doc.words) doc.words 0 []
        ⟨prepareDoc tw K doc, ld, zs⟩ rfl
        (by simp [prepareDoc, htw])
      exact ⟨h4, h3, h5, h6, h7⟩
  obtain ⟨hZ, hzs, hn, hm, hd⟩ := H
  refine ⟨?_, ?_, ?_, ?_, ?_, ?_, ?_, ?_⟩
  · intro j hj hoov
    rw [hinit, hZ j ?_]
    · have hpz : (⟨prepareDoc tw K doc, ld, zs⟩ : InitState).doc.Zs =
          List.replicate doc.words.length 0 := rfl
      rw [hpz, getD_replicate _ _ _ hj]
    · intro m hm hmj
      have hmj' : m = j := by omega
      subst hmj'
      exact hoov
  · rw [hinit, hzs]
  · rw [hinit, hn]
  · rw [hinit, hm]
  · rw [hinit, hd]
    exact rfl
  · exact fun v rest i s' hv => sampleWords_skip cfg v rest i s' hv
  · intro j hj hoov
    have hsd : sampleDocument cfg s = sampleWords cfg s.doc.words 0 s := rfl
    rw [hsd, sampleWords_Zs_getD cfg s.doc.words 0 s j ?_]
    intro m hm hmj
    have hmj' : m = j := by omega
    subst hmj'
    exact hoov
  · exact fun docs k hk => getTopicsCount_getD K V docs k hk

theorem lda_C7_witness :
    (∀ j, j < ([0, 5] : List ℕ).length → 1 ≤ ([0, 5] : List ℕ).getD j 0 →
      (initDocState id .one 1 1 [] ⟨[0, 5], [0, 0], [], []⟩ ⟨[0], [[0]]⟩
        [0]).doc.Zs.getD j 0 = 0) ∧
    (initDocState id .one 1 1 [] ⟨[0, 5], [0, 0], [], []⟩ ⟨[0], [[0]]⟩
      [0]).zs =
      ([0] : List ℕ).drop
        (([0, 5] : List ℕ).countP (fun v => decide (v < 1))) ∧
    (initDocState id .one 1 1 [] ⟨[0, 5], [0, 0], [], []⟩ ⟨[0], [[0]]⟩
      [0]).ld.numByTopic =
      (inVocabPairs 1 [0, 5] [0]).foldl
        (fun acc p => listAddAt acc p.2
          (1 * wEffect .one (initWeight id .one [] [0, 5]) p.1)) [0] ∧
    (initDocState id .one 1 1 [] ⟨[0, 5], [0, 0], [], []⟩ ⟨[0], [[0]]⟩
      [0]).ld.numByTopicWord =
      (inVocabPairs 1 [0, 5] [0]).foldl
        (fun acc p => matAddAt acc p.2 p.1
          (1 * wEffect .one (initWeight id .one [] [0, 5]) p.1)) [[0]] ∧
    (initDocState id .one 1 1 [] ⟨[0, 5], [0, 0], [], []⟩ ⟨[0], [[0]]⟩
      [0]).doc.numByTopic =
      (inVocabPairs 1 [0, 5] [0]).foldl
        (fun acc p => listAddAt acc p.2
          (1 * wEffect .one (initWeight id .one [] [0, 5]) p.1))
        (List.replicate 1 0) ∧
    (∀ v rest i s', ¬ v < exCfg.V →
      sampleWords exCfg (v :: rest) i s' =
        sampleWords exCfg rest (i + 1) s') ∧
    (∀ j, j < exS.doc.words.length → exCfg.V ≤ exS.doc.words.getD j 0 →
      (sampleDocument exCfg exS).doc.Zs.getD j 0 =
        exS.doc.Zs.getD j 0) ∧
    (∀ docs : List DocumentLDA, ∀ k, k < 1 →
      (getTopicsCount 1 1 docs).getD k 0 =
        (docs.map (fun d => inVocabCountByTopic 1 k d)).sum) :=
  lda_C7 id .one 1 1 [] ⟨[0, 5], [0, 0], [], []⟩ ⟨[0], [[0]]⟩ [0] exCfg exS

theorem sum_map_ite (V : ℕ) (wf : ℕ → ℚ) :
    ∀ ws : List ℕ,
      (ws.map (fun v => if v < V then wf v else 1)).sum =
        ((ws.filter (fun v => decide (v < V))).map wf).sum +
          (ws.countP (fun v => decide (V ≤ v)) : ℚ)
  | [] => by simp
  | v :: rest => by
    have ih := sum_map_ite V wf rest
    by_cases hv : v < V
    · rw [List.map_cons, if_pos hv, List.sum_cons, ih,
        List.filter_cons_of_pos (by simpa using hv), List.map_cons,
        List.sum_cons, List.countP_cons_of_neg _ _ (by simp; omega)]
      ring
    · rw [List.map_cons, if_neg hv, List.sum_cons, ih,
        List.filter_cons_of_neg (by simpa using hv),
        List.countP_cons_of_pos _ _ (by simp; omega)]
      push_cast
      ring

/-- C10.  `getSumWordWeight` includes out-of-vocab positions: in `one` mode
it is the full length of `words` (OOV tokens included), and in the weighted
modes every OOV position keeps its initial weight `1` (never overwritten by
initialization) and is included in the accumulated sum, which therefore
equals the in-vocab weights plus the OOV token count. -/
theorem lda_C10 (logF : ℚ → ℚ) (tw : TermWeight) (K V : ℕ)
    (vocabWeights : List ℚ) (doc : DocumentLDA) (ld : ModelStateLDA)
    (zs : List ℕ) :
    ((initDocState logF .one K V vocabWeights doc ld zs).doc.words =
      doc.words ∧
     getSumWordWeight .one
       (initDocState logF .one K V vocabWeights doc ld zs).doc =
       (doc.words.length : ℚ)) ∧
    (tw ≠ .one →
      (initDocState logF tw K V vocabWeights doc ld zs).doc.wordWeights =
        doc.words.map (fun v => if v < V then
          initWeight logF tw vocabWeights doc.words v else 1) ∧
      (∀ j, j < doc.words.length → V ≤ doc.words.getD j 0 →
        (initDocState logF tw K V vocabWeights doc ld
          zs).doc.wordWeights.getD j 0 = 1) ∧
      getSumWordWeight tw
        (initDocState logF tw K V vocabWeights doc ld zs).doc =
        ((doc.words.filter (fun v => decide (v < V))).map
          (initWeight logF tw vocabWeights doc.words)).sum +
          (doc.words.countP (fun v => decide (V ≤ v)) : ℚ)) := by
  constructor
  · obtain ⟨h1, _, _, _, _, _, _⟩ := initLoop_spec_one V
      (initWeight logF .one vocabWeights doc.words) doc.words 0
      ⟨prepareDoc .one K doc, ld, zs⟩
    have hinit : initDocState logF .one K V vocabWeights doc ld zs =
        initLoop .one V (initWeight logF .one vocabWeights doc.words)
          doc.words 0 ⟨prepareDoc .one K doc, ld, zs⟩ := rfl
    have hw : (initDocState logF .one K V vocabWeights doc ld
        zs).doc.words = doc.words := by
      rw [hinit, h1]
      rfl
    refine ⟨hw, ?_⟩
    have hswc : getSumWordWeight .one
        (initDocState logF .one K V vocabWeights doc ld zs).doc =
        ((initDocState logF .one K V vocabWeights doc ld
          zs).doc.words.length : ℚ) := rfl
    rw [hswc, hw]
  · intro htw
    have hinit : initDocState logF tw K V vocabWeights doc ld zs =
        initLoop tw V (initWeight logF tw vocabWeights doc.words)
          doc.words 0 ⟨prepareDoc tw K doc, ld, zs⟩ := rfl
    obtain ⟨_, h2, _, _, _, _, _⟩ := initLoop_spec_weighted tw htw V
      (initWeight logF tw vocabWeights doc.words) doc.words 0 []
      ⟨prepareDoc tw K doc, ld, zs⟩ rfl (by simp [prepareDoc, htw])
    have hww : (initDocState logF tw K V vocabWeights doc ld
        zs).doc.wordWeights =
        doc.words.map (fun v => if v < V then
          initWeight logF tw vocabWeights doc.words v else 1) := by
      rw [hinit, h2, List.nil_append]
    refine ⟨hww, ?_, ?_⟩
    · intro j hj hoov
      have hjlen : j < (doc.words.map (fun v => if v < V then
          initWeight logF tw vocabWeights doc.words v else 1)).length := by
        simpa using hj
      rw [hww, List.getD_eq_getElem _ 0 hjlen, List.getElem_map]
      rw [List.getD_eq_getElem doc.words 0 hj] at hoov
      rw [if_neg (by omega)]
    · have hswc : getSumWordWeight tw
          (initDocState logF tw K V vocabWeights doc ld zs).doc =
          (initDocState logF tw K V vocabWeights doc ld
            zs).doc.wordWeights.sum := by
        cases tw with
        | one => exact absurd rfl htw
        | idf => rfl
        | pmi => rfl
      rw [hswc, hww, sum_map_ite]

theorem lda_C10_witness :
    ((initDocState id .idf 1 1 [1/2] ⟨[0, 5], [0, 0], [], []⟩ ⟨[0], [[0]]⟩
        [0]).doc.words = ([0, 5] : List ℕ) ∧
     getSumWordWeight .one
       (initDocState id .one 1 1 [1/2] ⟨[0, 5], [0, 0], [], []⟩
         ⟨[0], [[0]]⟩ [0]).doc = (([0, 5] : List ℕ).length : ℚ)) ∧
    (TermWeight.idf ≠ .one →
      (initDocState id .idf 1 1 [1/2] ⟨[0, 5], [0, 0], [], []⟩ ⟨[0], [[0]]⟩
          [0]).doc.wordWeights =
        ([0, 5] : List ℕ).map (fun v => if v < 1 then
          initWeight id .idf [1/2] [0, 5] v else 1) ∧
      (∀ j, j < ([0, 5] : List ℕ).length → 1 ≤ ([0, 5] : List ℕ).getD j 0 →
        (initDocState id .idf 1 1 [1/2] ⟨[0, 5], [0, 0], [], []⟩
          ⟨[0], [[0]]⟩ [0]).doc.wordWeights.getD j 0 = 1) ∧
      getSumWordWeight .idf
        (initDocState id .idf 1 1 [1/2] ⟨[0, 5], [0, 0], [], []⟩
          ⟨[0], [[0]]⟩ [0]).doc =
        ((([0, 5] : List ℕ).filter (fun v => decide (v < 1))).map
          (initWeight id .idf [1/2] [0, 5])).sum +
          (([0, 5] : List ℕ).countP (fun v => decide (1 ≤ v)) : ℚ)) := by
  have h1 := lda_C10 id .idf 1 1 [1/2] ⟨[0, 5], [0, 0], [], []⟩
    ⟨[0], [[0]]⟩ [0]
  have h2 := lda_C10 id .one 1 1 [1/2] ⟨[0, 5], [0, 0], [], []⟩
    ⟨[0], [[0]]⟩ [0]
  exact ⟨⟨h1.1.1, h2.1.2⟩, h1.2⟩

/-- C8.  Inference on held-out documents never mutates the frozen model
state: in both joint and independent modes, for any iteration count, worker
count, schedule and random streams, all initialization, sampling and merging
operate on temporary copies and the global state component returned by the
call is exactly the input global state. -/
theorem lda_C8 (lgamma logF : ℚ → ℚ) (cfg : SamplerCfg)
    (vocabWeights : List ℚ) (globalState : ModelStateLDA)
    (docs : List DocumentLDA) (zs : List ℕ) (maxIter numWorkers : ℕ)
    (schedule : ℕ → List (List ℕ × List ℚ)) (zsOf : ℕ → List ℕ)
    (usOf : ℕ → List ℚ) :
    (inferTogether lgamma logF cfg vocabWeights globalState docs zs maxIter
      numWorkers schedule).1 = globalState ∧
    (inferIndependent lgamma logF cfg vocabWeights globalState docs zsOf
      usOf maxIter).1 = globalState :=
  ⟨rfl, rfl⟩

end tomoto
